import Mathlib

/-!
Console and motor control of `Core/Src/main.c`.

A shallow embedding of the user code of `main.c` (STM32F411 firmware): the
motor helpers (`motors_on`, `motors_off`, `motors_set_pwm_ccr`), the command
dispatcher `handle_line`, the body of the `for (;;)` loop of `shell_task`, the
receive path (`HAL_UART_RxCpltCallback` and the queue it fills), and the
transmit gate (`uart2_write_blocking_it` with `HAL_UART_TxCpltCallback`).

Conventions of the embedding.

* A `char` / `uint8_t` is the natural number of its byte value (0..255); on
  that representation the casts `(unsigned char)`, `(char)` and `(uint8_t)`
  of the source are identities and are not written.
* Memory that C reads as a string is a `List Nat`; reading stops at the first
  0 byte, and the end of the list counts as a terminator too.
* The console output is the field `tx`: the sequence of byte strings handed to
  `uart2_write_blocking_it` with a non-zero length, in call order.  Whether the
  transmit gate then acquires its lock and the UART accepts the transfer is
  decided by the RTOS and the hardware; the console model leaves that out, and
  the namespace `TxGate` models the gate on its own: once as the sequence of
  calls one invocation makes, once as a step function over interleaved tasks.
* The receive queue, the lock and the completion signal are FreeRTOS objects;
  their behaviour is taken from the specification and marked as such.
* The field `dispatched` is a ghost trace: the contents of `cmd_line` at each
  call `handle_line(cmd_line)`.  No function reads it.
-/

namespace MainC

/-! ## Constants of the source (lines 47-50) -/

def RX_QUEUE_LEN : Nat := 128

def CMD_LINE_MAX : Nat := 64

def UART_TX_TIMEOUT_MS : Nat := 1000

def MOTOR_PWM_CCR_FIXED : Nat := 4000

/-- The bytes of a C string literal (without its terminator). -/
def bytes (s : String) : List Nat := s.toList.map Char.toNat

/-! ## Parameters that `main.c` takes from elsewhere -/

/-- The three macros of `FreeRTOSConfig.h` that `main.c` tests with `#if`, and
the text that the kernel calls `vTaskList` and `vTaskGetRunTimeStats` append to
their buffer.  Neither the header nor the kernel is part of `main.c`, so they
are parameters of the model. -/
structure Env where
  configUSE_TRACE_FACILITY : Nat
  configUSE_STATS_FORMATTING_FUNCTIONS : Nat
  configGENERATE_RUN_TIME_STATS : Nat
  vTaskList : List Nat
  vTaskGetRunTimeStats : List Nat
deriving DecidableEq

/-- The condition of the `#if` around the TASKS command (lines 196, 243). -/
def Env.tasksCompiled (env : Env) : Bool :=
  env.configUSE_TRACE_FACILITY == 1 && env.configUSE_STATS_FORMATTING_FUNCTIONS == 1

/-- The condition of the `#if` around the RUNTIME command (lines 199, 254). -/
def Env.runtimeCompiled (env : Env) : Bool :=
  env.configGENERATE_RUN_TIME_STATS == 1

/-! ## State -/

/-- Level of a GPIO output. -/
inductive GPIO_PinState where
  | GPIO_PIN_RESET
  | GPIO_PIN_SET
deriving DecidableEq

/-- The four direction outputs on port B. -/
inductive OutPin where
  | OUT_1_Pin
  | OUT_2_Pin
  | OUT_3_Pin
  | OUT_4_Pin
deriving DecidableEq

/-- The two compare channels of TIM3 that the source programs. -/
inductive TimChannel where
  | TIM_CHANNEL_1
  | TIM_CHANNEL_2
deriving DecidableEq

/-- Everything the console task reads or writes: the TIM3 registers, the four
direction outputs, the statics `motor_enabled`, `cmd_line`, `cmd_len`, the
console output `tx`, and the ghost trace `dispatched`. -/
structure State where
  ARR : Nat
  CCR1 : Nat
  CCR2 : Nat
  OUT_1 : GPIO_PinState
  OUT_2 : GPIO_PinState
  OUT_3 : GPIO_PinState
  OUT_4 : GPIO_PinState
  motor_enabled : Nat
  cmd_line : List Nat
  cmd_len : Nat
  tx : List (List Nat)
  dispatched : List (List Nat)
deriving DecidableEq

/-- The motor state of the specification: enabled flag, both duty registers and
the four direction outputs. -/
structure MotorState where
  enabled : Nat
  duty1 : Nat
  duty2 : Nat
  out1 : GPIO_PinState
  out2 : GPIO_PinState
  out3 : GPIO_PinState
  out4 : GPIO_PinState
deriving DecidableEq

/-- Projection of the state onto the motor state. -/
def State.motor (s : State) : MotorState :=
  { enabled := s.motor_enabled, duty1 := s.CCR1, duty2 := s.CCR2,
    out1 := s.OUT_1, out2 := s.OUT_2, out3 := s.OUT_3, out4 := s.OUT_4 }

/-! ## Collaborators: HAL, C library -/

/-- Modelled from the spec: `HAL_GPIO_WritePin` lives in the HAL driver, not in
`main.c`; the spec (section 6) names it a direction-output pin write.  The four
pin masks of `main.h` are taken to be four distinct outputs. -/
def HAL_GPIO_WritePin (pin : OutPin) (v : GPIO_PinState) (s : State) : State :=
  match pin with
  | .OUT_1_Pin => { s with OUT_1 := v }
  | .OUT_2_Pin => { s with OUT_2 := v }
  | .OUT_3_Pin => { s with OUT_3 := v }
  | .OUT_4_Pin => { s with OUT_4 := v }

/-- Modelled from the spec: the HAL macro `__HAL_TIM_GET_AUTORELOAD` is not in
`main.c`; the spec (section 6) names it a period register read. -/
def __HAL_TIM_GET_AUTORELOAD (s : State) : Nat := s.ARR

/-- Modelled from the spec: the HAL macro `__HAL_TIM_GET_COMPARE` is not in
`main.c`; the spec (section 6) names it a duty register read. -/
def __HAL_TIM_GET_COMPARE (ch : TimChannel) (s : State) : Nat :=
  match ch with
  | .TIM_CHANNEL_1 => s.CCR1
  | .TIM_CHANNEL_2 => s.CCR2

/-- Modelled from the spec: the HAL macro `__HAL_TIM_SET_COMPARE` is not in
`main.c`; the spec (section 6) names it a duty register write. -/
def __HAL_TIM_SET_COMPARE (ch : TimChannel) (v : Nat) (s : State) : State :=
  match ch with
  | .TIM_CHANNEL_1 => { s with CCR1 := v }
  | .TIM_CHANNEL_2 => { s with CCR2 := v }

/-- C library `isspace` in the "C" locale: space, and the five controls
HT, LF, VT, FF, CR. -/
def isspace (c : Nat) : Bool := c == 32 || (9 ≤ c && c ≤ 13)

/-- C library `toupper` in the "C" locale: `a`..`z` go to `A`..`Z`, every
other value is returned as it is. -/
def toupper (c : Nat) : Nat := if 97 ≤ c ∧ c ≤ 122 then c - 32 else c

/-- C library `strlen`: the number of bytes before the first 0. -/
def strlen : List Nat → Nat
  | [] => 0
  | c :: rest => if c = 0 then 0 else strlen rest + 1

/-- The outcome `strcmp(a, b) == 0`: both strings are walked in step until they
differ or both end. -/
def strcmp_eq : List Nat → List Nat → Bool
  | [], [] => true
  | [], b :: _ => b == 0
  | a :: _, [] => a == 0
  | a :: as, b :: bs => if a ≠ b then false else if a = 0 then true else strcmp_eq as bs

/-- One `%u` / `%lu` conversion of `snprintf` on this 32-bit target: the decimal
digits of the value, most significant first.  `fuel` bounds the digit count. -/
def utoa_digits : Nat → Nat → List Nat → List Nat
  | 0, _, acc => acc
  | fuel + 1, n, acc =>
    if n / 10 = 0 then (48 + n % 10) :: acc
    else utoa_digits fuel (n / 10) ((48 + n % 10) :: acc)

/-- Decimal text of a 32-bit unsigned value (at most ten digits). -/
def fmt_unsigned (n : Nat) : List Nat := utoa_digits 10 (n % 2 ^ 32) []

/-- C library `snprintf(b, size, ...)`: at most `size - 1` bytes of the
formatted text are stored (a terminator follows them). -/
def snprintf (size : Nat) (formatted : List Nat) : List Nat := formatted.take (size - 1)

/-! ## UART2 output (lines 88-109) -/

/-- Lines 88-104, as far as the sequential model goes: nothing is written for
`len == 0` (line 90; `data` is never NULL at a call site of `main.c`);
otherwise the first `len` bytes of `data` are handed to the transmit gate and
recorded in `tx`.  The handle checks of line 91, the lock of line 93 and the
HAL status of line 98 belong to the transmit gate and are not modelled here. -/
def uart2_write_blocking_it (data : List Nat) (len : Nat) (s : State) : State :=
  if len = 0 then s else { s with tx := s.tx ++ [data.take len] }

/-- Lines 106-109: the length is `(uint16_t)strlen(s)`. -/
def uart2_write_str (str : List Nat) (s : State) : State :=
  uart2_write_blocking_it str (strlen str % 2 ^ 16) s

/-! ## Motors (lines 143-184) -/

def motors_safe_off_pins (s : State) : State :=
  let s := HAL_GPIO_WritePin .OUT_1_Pin .GPIO_PIN_RESET s
  let s := HAL_GPIO_WritePin .OUT_2_Pin .GPIO_PIN_RESET s
  let s := HAL_GPIO_WritePin .OUT_3_Pin .GPIO_PIN_RESET s
  HAL_GPIO_WritePin .OUT_4_Pin .GPIO_PIN_RESET s

def motors_forward_pins (s : State) : State :=
  let s := HAL_GPIO_WritePin .OUT_3_Pin .GPIO_PIN_RESET s
  let s := HAL_GPIO_WritePin .OUT_4_Pin .GPIO_PIN_SET s
  let s := HAL_GPIO_WritePin .OUT_1_Pin .GPIO_PIN_RESET s
  HAL_GPIO_WritePin .OUT_2_Pin .GPIO_PIN_SET s

def motors_set_pwm_ccr (ccr : Nat) (s : State) : State :=
  let arr := __HAL_TIM_GET_AUTORELOAD s
  let ccr := if ccr > arr then arr else ccr
  let s := __HAL_TIM_SET_COMPARE .TIM_CHANNEL_1 ccr s
  __HAL_TIM_SET_COMPARE .TIM_CHANNEL_2 ccr s

def motors_off (s : State) : State :=
  let s := motors_set_pwm_ccr 0 s
  let s := motors_safe_off_pins s
  { s with motor_enabled := 0 }

def motors_on (s : State) : State :=
  let s := motors_forward_pins s
  let s := motors_set_pwm_ccr MOTOR_PWM_CCR_FIXED s
  { s with motor_enabled := 1 }

/-! ## Console (lines 187-311) -/

/-- The text of `print_help` (lines 190-202), with the two conditional lines. -/
def help_text (env : Env) : List Nat :=
  bytes "\r\nCommands:\r\n"
  ++ bytes "  help     - show this help\r\n"
  ++ bytes "  clear    - clear terminal\r\n"
  ++ bytes "  on       - motors ON (fixed PWM)\r\n"
  ++ bytes "  off      - motors OFF\r\n"
  ++ bytes "  status   - show motor status\r\n"
  ++ (if env.tasksCompiled then bytes "  tasks    - list tasks\r\n" else [])
  ++ (if env.runtimeCompiled then bytes "  runtime  - runtime stats\r\n" else [])
  ++ bytes "\r\n"

def print_help (env : Env) (s : State) : State :=
  uart2_write_str (help_text env) s

/-- The loop of lines 211-215.  The list is the memory from `line[i]` on and
`cmd` holds `cmd[0..k)`, so `k = cmd.length`; the result is `cmd[0..k)` at loop
exit, to which line 216 adds the terminator. -/
def handle_line_loop : List Nat → List Nat → List Nat
  | [], cmd => cmd
  | c :: rest, cmd =>
    if c ≠ 0 ∧ cmd.length < CMD_LINE_MAX - 1 then
      if isspace c then handle_line_loop rest cmd
      else handle_line_loop rest (cmd ++ [toupper c])
    else cmd

/-- The text formatted by the `snprintf` of lines 231-237. -/
def status_format (s : State) : List Nat :=
  bytes "EN=" ++ fmt_unsigned s.motor_enabled
  ++ bytes " | FIXED_CCR=" ++ fmt_unsigned MOTOR_PWM_CCR_FIXED
  ++ bytes " | ARR=" ++ fmt_unsigned (__HAL_TIM_GET_AUTORELOAD s)
  ++ bytes " CCR1=" ++ fmt_unsigned (__HAL_TIM_GET_COMPARE .TIM_CHANNEL_1 s)
  ++ bytes " CCR2=" ++ fmt_unsigned (__HAL_TIM_GET_COMPARE .TIM_CHANNEL_2 s)
  ++ bytes "\r\n"

/-- The error response of line 265. -/
def err_text : List Nat := bytes "ERR (type help)\r\n"

def handle_line (env : Env) (line : List Nat) (s : State) : State :=
  let cmd := handle_line_loop line []
  if strcmp_eq cmd (bytes "HELP") then print_help env s
  else if strcmp_eq cmd (bytes "CLEAR") then uart2_write_str (bytes "\x1bc") s
  else if strcmp_eq cmd (bytes "ON") then
    uart2_write_str (bytes "OK ON\r\n") (motors_on s)
  else if strcmp_eq cmd (bytes "OFF") then
    uart2_write_str (bytes "OK OFF\r\n") (motors_off s)
  else if strcmp_eq cmd (bytes "STATUS") then
    uart2_write_str (snprintf 160 (status_format s)) s
  else if env.tasksCompiled && strcmp_eq cmd (bytes "TASKS") then
    uart2_write_str (bytes "Name\t\tState Prio Stack Num\r\n" ++ env.vTaskList) s
  else if env.runtimeCompiled && strcmp_eq cmd (bytes "RUNTIME") then
    uart2_write_str (bytes "Name\t\tAbs Time\t% Time\r\n" ++ env.vTaskGetRunTimeStats) s
  else uart2_write_str err_text s

/-- Lines 273-275: what `shell_task` writes before it enters its loop. -/
def shell_task_start (env : Env) (s : State) : State :=
  let s := uart2_write_str (bytes "\x1bcF411 UART2 console ready\r\n") s
  let s := print_help env s
  uart2_write_str (bytes ">> ") s

/-- One pass of the loop of `shell_task` (lines 284-309) for a byte `c` that
`xQueueReceive` delivered. -/
def shell_task_step (env : Env) (s : State) (c : Nat) : State :=
  let s := uart2_write_blocking_it [c] 1 s
  if c = 13 ∨ c = 10 then
    let s := uart2_write_str (bytes "\r\n") s
    let s :=
      if s.cmd_len > 0 then
        let s := { s with cmd_line := s.cmd_line.set s.cmd_len 0 }
        let s := { s with dispatched := s.dispatched ++ [s.cmd_line] }
        let s := handle_line env s.cmd_line s
        let s := { s with cmd_len := 0 }
        { s with cmd_line := List.replicate CMD_LINE_MAX 0 }
      else s
    uart2_write_str (bytes ">> ") s
  else if c = 127 ∨ c = 8 then
    if s.cmd_len > 0 then
      let s := { s with cmd_len := s.cmd_len - 1 }
      uart2_write_str (bytes "\x08 \x08") s
    else s
  else if s.cmd_len < CMD_LINE_MAX - 1 then
    { s with cmd_line := s.cmd_line.set s.cmd_len c, cmd_len := s.cmd_len + 1 }
  else s

/-- The loop of `shell_task` over the bytes that the queue delivers, in order. -/
def shell_task_run (env : Env) (s : State) (input : List Nat) : State :=
  input.foldl (shell_task_step env) s

/-! ## Vocabulary of the specification -/

/-- The bytes of a C string: everything before the first 0. -/
def cstr : List Nat → List Nat
  | [] => []
  | c :: rest => if c = 0 then [] else c :: cstr rest

/-- Normalised form in the words of the specification (section 4.4): every
whitespace character removed, the remaining characters uppercased. -/
def normalised (line : List Nat) : List Nat :=
  (line.filter (fun c => !isspace c)).map toupper

/-- The command table of the specification (section 4.4), with the two
conditional entries when they are compiled in. -/
def command_table (env : Env) : List (List Nat) :=
  [bytes "HELP", bytes "CLEAR", bytes "ON", bytes "OFF", bytes "STATUS"]
  ++ (if env.tasksCompiled then [bytes "TASKS"] else [])
  ++ (if env.runtimeCompiled then [bytes "RUNTIME"] else [])

/-- A build with neither conditional command. -/
def env0 : Env :=
  { configUSE_TRACE_FACILITY := 0, configUSE_STATS_FORMATTING_FUNCTIONS := 0,
    configGENERATE_RUN_TIME_STATS := 0, vTaskList := [], vTaskGetRunTimeStats := [] }

/-- The state after `motors_off()` at line 362 with the period register at
`arr`, the statics at their initial value and nothing written yet. -/
def boot (arr : Nat) : State :=
  { ARR := arr, CCR1 := 0, CCR2 := 0,
    OUT_1 := .GPIO_PIN_RESET, OUT_2 := .GPIO_PIN_RESET,
    OUT_3 := .GPIO_PIN_RESET, OUT_4 := .GPIO_PIN_RESET,
    motor_enabled := 0, cmd_line := List.replicate CMD_LINE_MAX 0, cmd_len := 0,
    tx := [], dispatched := [] }

/-- The dispatch key of a line buffer: the normalised form of the C string in
it, cut to the 63 characters that `cmd` can hold. -/
def key (line : List Nat) : List Nat := (normalised (cstr line)).take (CMD_LINE_MAX - 1)

/-- Two characters are the same letter up to case: equal, or one is a lower-case
letter and the other is its upper-case form. -/
def sameLetter (c d : Nat) : Prop :=
  c = d ∨ (97 ≤ c ∧ c ≤ 122 ∧ c = d + 32) ∨ (97 ≤ d ∧ d ≤ 122 ∧ d = c + 32)

instance (c d : Nat) : Decidable (sameLetter c d) := by
  unfold sameLetter
  infer_instance

/-- Two lines differ only by inserted or removed whitespace characters and by
the case of letters. -/
inductive WsCaseEquiv : List Nat → List Nat → Prop where
  | nil : WsCaseEquiv [] []
  | ws_left (c : Nat) (a b : List Nat) :
      isspace c = true → WsCaseEquiv a b → WsCaseEquiv (c :: a) b
  | ws_right (c : Nat) (a b : List Nat) :
      isspace c = true → WsCaseEquiv a b → WsCaseEquiv a (c :: b)
  | letter (c d : Nat) (a b : List Nat) :
      sameLetter c d → WsCaseEquiv a b → WsCaseEquiv (c :: a) (d :: b)

/-- A received byte that is neither a line terminator nor a backspace. -/
def plainByte (c : Nat) : Prop := c ≠ 13 ∧ c ≠ 10 ∧ c ≠ 8 ∧ c ≠ 127

instance (c : Nat) : Decidable (plainByte c) := by
  unfold plainByte
  infer_instance

/-- The echo of each received byte, one write per byte. -/
def echoes (input : List Nat) : List (List Nat) := input.map (fun c => [c])

/-- A received byte that is not a line terminator (it may be a backspace). -/
def editByte (c : Nat) : Prop := c ≠ 13 ∧ c ≠ 10

instance (c : Nat) : Decidable (editByte c) := by
  unfold editByte
  infer_instance

/-- Replaying one received byte on a line, in the words of the specification
(section 4.3): a terminator (CR or LF) ends the line, so the line restarts
empty; a backspace (DEL 0x7F or BS 0x08) deletes the last retained character;
any other byte is retained while the line has fewer than 63 characters and
dropped otherwise. -/
def replay_byte (line : List Nat) (c : Nat) : List Nat :=
  if c = 13 ∨ c = 10 then []
  else if c = 127 ∨ c = 8 then line.dropLast
  else if line.length < CMD_LINE_MAX - 1 then line ++ [c]
  else line

/-- Replaying a sequence of received bytes from the empty line. -/
def replay (input : List Nat) : List Nat := input.foldl replay_byte []

/-- The number that a string of decimal digits denotes. -/
def decimal_value (ds : List Nat) : Nat := ds.foldl (fun acc d => 10 * acc + (d - 48)) 0

/-- A decimal numeral: at least one character, every character a digit 0..9,
and no leading zero except in the numeral "0" itself. -/
def isNumeral (ds : List Nat) : Prop :=
  ds ≠ [] ∧ (∀ d ∈ ds, 48 ≤ d ∧ d ≤ 57) ∧ (ds.head? = some 48 → ds = [48])

/-! ## Receive byte channel (lines 120-133, 280, 364, 368) -/

/-- Modelled from the spec: the FreeRTOS queue behind `q_uart2_rx` is not part
of `main.c`.  The spec (sections 3 and 4.1) describes it as an ordered sequence
of bytes with a fixed capacity, strict FIFO: `items` holds the queued bytes,
oldest first, and `uxLength` is the capacity. -/
structure Queue where
  uxLength : Nat
  items : List Nat
deriving DecidableEq

/-- Modelled from the spec: `xQueueCreate` is not part of `main.c`; it creates
the channel empty with the given capacity (section 3: "fixed capacity",
"created once at startup"). -/
def xQueueCreate (uxQueueLength : Nat) : Queue :=
  { uxLength := uxQueueLength, items := [] }

/-- Modelled from the spec: `xQueueSendFromISR` is not part of `main.c`; it is
the non-blocking `push` of section 4.1: the byte is appended behind the queued
ones, and "if full, the byte is discarded".  The Boolean is the `pdTRUE` result,
true when the byte was stored. -/
def xQueueSendFromISR (q : Queue) (item : Nat) : Queue × Bool :=
  if q.items.length < q.uxLength then ({ q with items := q.items ++ [item] }, true)
  else (q, false)

/-- Modelled from the spec: `xQueueReceive` with `portMAX_DELAY` is not part of
`main.c`; it is the blocking `pop` of section 4.1: the oldest byte is removed and
returned; on an empty channel the caller stays suspended, which is `none`. -/
def xQueueReceive (q : Queue) : Option (Nat × Queue) :=
  match q.items with
  | [] => none
  | b :: rest => some (b, { q with items := rest })

/-- The statics of the receive path (lines 63-64) with the armed state of the
one-byte reception, and two ghost traces: `accepted`, the bytes for which the
send returned `pdTRUE`, and `delivered`, the bytes `shell_task` received, both
in order of occurrence. -/
structure RxState where
  q_uart2_rx : Option Queue
  uart2_rx_byte : Nat
  rx_armed : Bool
  accepted : List Nat
  delivered : List Nat
deriving DecidableEq

/-- Lines 120-133: the receive-complete callback.  `usart2` is the outcome of
the test `huart->Instance != USART2`. -/
def HAL_UART_RxCpltCallback (usart2 : Bool) (s : RxState) : RxState :=
  if !usart2 then s
  else
    let s :=
      match s.q_uart2_rx with
      | none => s
      | some q =>
        let r := xQueueSendFromISR q s.uart2_rx_byte
        { s with q_uart2_rx := some r.1,
                 accepted := if r.2 then s.accepted ++ [s.uart2_rx_byte] else s.accepted }
    { s with rx_armed := true }

/-- Line 280 of `shell_task`: one `xQueueReceive`; while the channel is empty
the task stays suspended and nothing changes. -/
def shell_task_receive (s : RxState) : RxState :=
  match s.q_uart2_rx with
  | none => s
  | some q =>
    match xQueueReceive q with
    | none => s
    | some (b, q2) => { s with q_uart2_rx := some q2, delivered := s.delivered ++ [b] }

/-- What happens on the receive channel: the UART completes the reception of a
byte on USART2, or the console task performs its receive. -/
inductive RxEvent where
  | rx (b : Nat)
  | recv
deriving DecidableEq

/-- One event on the receive channel.  A completed reception stores the byte in
`uart2_rx_byte`, uses up the armed reception and runs the callback; without an
armed reception no completion interrupt occurs. -/
def rx_step (s : RxState) (e : RxEvent) : RxState :=
  match e with
  | .rx b =>
    if s.rx_armed then
      HAL_UART_RxCpltCallback true { s with uart2_rx_byte := b, rx_armed := false }
    else s
  | .recv => shell_task_receive s

def rx_run (s : RxState) (events : List RxEvent) : RxState := events.foldl rx_step s

/-- The receive path after lines 364 and 368 of `main`: the queue created with
`RX_QUEUE_LEN` one-byte items and the first reception armed. -/
def rx_boot : RxState :=
  { q_uart2_rx := some (xQueueCreate RX_QUEUE_LEN), uart2_rx_byte := 0, rx_armed := true,
    accepted := [], delivered := [] }

/-- The bytes whose reception completes, in order. -/
def rx_bytes (events : List RxEvent) : List Nat :=
  events.filterMap (fun e => match e with | .rx b => some b | .recv => none)

/-- The channel invariant: the queue exists with capacity 128 and at most 128
bytes, the reception is armed, and the delivered bytes followed by the queued
ones are the accepted bytes. -/
def RxInv (s : RxState) : Prop :=
  s.rx_armed = true ∧
  ∃ q : Queue, s.q_uart2_rx = some q ∧ q.uxLength = RX_QUEUE_LEN ∧
    q.items.length ≤ RX_QUEUE_LEN ∧ s.delivered ++ q.items = s.accepted

/-! ## Transmit gate (lines 88-118) -/

namespace TxGate

/-- The calls that `uart2_write_blocking_it` makes on its collaborators, each
with the result it got: the take of the lock `mtx_uart2_tx` with the caller's
timeout (line 93), the non-blocking take of the completion signal
`sem_uart2_tx` (line 96), `HAL_UART_Transmit_IT` on the bytes to send (line 98,
true for `HAL_OK`), the take of the completion signal with the caller's timeout
(line 100, false for a timeout), and the give of the lock (line 103). -/
inductive Call where
  | take_mtx (ok : Bool)
  | drain_sem (had : Bool)
  | transmit (data : List Nat) (ok : Bool)
  | wait_sem (ok : Bool)
  | give_mtx
deriving DecidableEq

/-- What the RTOS and the HAL answer during one call of
`uart2_write_blocking_it`; they are not part of `main.c`, so their answers are
parameters. -/
structure Answers where
  mtx_taken : Bool
  sem_stale : Bool
  hal_ok : Bool
  sem_signalled : Bool
deriving DecidableEq

/-- Lines 88-104 as the sequence of calls made, in order.  `data` is `none` for
a NULL pointer; `mtx_uart2_tx` and `sem_uart2_tx` tell whether the handles are
non-NULL. -/
def uart2_write_blocking_it (data : Option (List Nat)) (len : Nat)
    (mtx_uart2_tx sem_uart2_tx : Bool) (a : Answers) : List Call :=
  match data with
  | none => []
  | some d =>
    if len = 0 then []
    else if !mtx_uart2_tx || !sem_uart2_tx then []
    else if !a.mtx_taken then [Call.take_mtx false]
    else
      [Call.take_mtx true, Call.drain_sem a.sem_stale]
      ++ (if a.hal_ok then [Call.transmit (d.take len) true, Call.wait_sem a.sem_signalled]
          else [Call.transmit (d.take len) false])
      ++ [Call.give_mtx]

/-- A call of `HAL_UART_Transmit_IT`. -/
def Call.isTransmit : Call → Bool
  | .transmit _ _ => true
  | _ => false

/-- A take of the completion signal, blocking or not. -/
def Call.takesSignal : Call → Bool
  | .drain_sem _ => true
  | .wait_sem _ => true
  | _ => false

/-- Where a task stands inside `uart2_write_blocking_it`: outside the function,
or about to execute the call of the named source line.  From line 93 to line 98
the bytes to send are carried along. -/
inductive Pc where
  | idle
  | line93 (d : List Nat)
  | line96 (d : List Nat)
  | line98 (d : List Nat)
  | line100
  | line103
deriving DecidableEq

/-- The transmit gate shared by all callers: the program point of every task,
the holder of the lock `mtx_uart2_tx` if any, whether the completion signal
`sem_uart2_tx` holds its permit, and whether the two handles are non-NULL. -/
structure Gate where
  pc : Nat → Pc
  mtx : Option Nat
  sem : Bool
  mtx_uart2_tx : Bool
  sem_uart2_tx : Bool

/-- Task `i` moves to program point `p`. -/
def Gate.goto (g : Gate) (i : Nat) (p : Pc) : Gate :=
  { g with pc := fun k => if k = i then p else g.pc k }

/-- Modelled from the spec: `xSemaphoreTake` on the mutex is not part of
`main.c`; the spec (section 3) names it a mutual-exclusion lock that serializes
writers, taken "blocking up to timeout" (section 4.2).  The take returns true
and makes the caller the holder when the lock is free; it returns false, after
the timeout, when the lock is held. -/
def mtx_take (g : Gate) (i : Nat) : Gate × Bool :=
  if g.mtx = none then ({ g with mtx := some i }, true) else (g, false)

/-- Modelled from the spec: `xSemaphoreGive` on the mutex is not part of
`main.c`; it releases the lock (section 4.2, step 5). -/
def mtx_give (g : Gate) : Gate := { g with mtx := none }

/-- Modelled from the spec: `xSemaphoreTake` on the binary semaphore is not part
of `main.c`; the spec (section 3) names it a completion signal with one permit,
"consumed by the waiting writer".  The take returns true and consumes the permit
when there is one; it returns false (at once for a zero timeout, after the
timeout otherwise) when there is none. -/
def sem_take (g : Gate) : Gate × Bool :=
  if g.sem then ({ g with sem := false }, true) else (g, false)

/-- Modelled from the spec: `xSemaphoreGiveFromISR` is not part of `main.c`; it
raises the one permit of the completion signal (section 3). -/
def xSemaphoreGiveFromISR (g : Gate) : Gate := { g with sem := true }

/-- Lines 111-118: the transmit-complete callback.  `usart2` is the outcome of
the test `huart->Instance != USART2`. -/
def HAL_UART_TxCpltCallback (usart2 : Bool) (g : Gate) : Gate :=
  if !usart2 then g else xSemaphoreGiveFromISR g

/-- Lines 90-91: the entry of task `i` into `uart2_write_blocking_it`; the task
either returns at once or goes on to the take of the lock. -/
def enter_call (g : Gate) (i : Nat) (data : Option (List Nat)) (len : Nat) : Gate :=
  match data with
  | none => g
  | some d =>
    if len = 0 then g
    else if !g.mtx_uart2_tx || !g.sem_uart2_tx then g
    else g.goto i (Pc.line93 (d.take len))

/-- What can happen at the gate: a task enters `uart2_write_blocking_it`, a task
inside it completes its next call with the given result, or the
transmit-complete interrupt runs its callback. -/
inductive Event where
  | enter (i : Nat) (data : Option (List Nat)) (len : Nat)
  | call (i : Nat) (c : Call)
  | tx_complete (usart2 : Bool)
deriving DecidableEq

/-- One atomic step of the gate (lines 93-103 for the task that moves).  The
result is `none` when the event cannot happen in this state: the task is not at
that call, or the call would not return that result. -/
def gstep (g : Gate) (e : Event) : Option Gate :=
  match e with
  | .tx_complete u => some (HAL_UART_TxCpltCallback u g)
  | .enter i data len =>
    match g.pc i with
    | .idle => some (enter_call g i data len)
    | _ => none
  | .call i c =>
    match g.pc i, c with
    | .line93 d, .take_mtx ok =>
      if (mtx_take g i).2 = ok then
        some ((mtx_take g i).1.goto i (if ok then Pc.line96 d else Pc.idle))
      else none
    | .line96 d, .drain_sem had =>
      if (sem_take g).2 = had then some ((sem_take g).1.goto i (Pc.line98 d)) else none
    | .line98 d, .transmit d2 ok =>
      if d2 = d then some (g.goto i (if ok then Pc.line100 else Pc.line103)) else none
    | .line100, .wait_sem ok =>
      if (sem_take g).2 = ok then some ((sem_take g).1.goto i Pc.line103) else none
    | .line103, .give_mtx => some ((mtx_give g).goto i Pc.idle)
    | _, _ => none

/-- A run of the gate over a sequence of events; `none` when some event cannot
happen. -/
def grun (g : Gate) : List Event → Option Gate
  | [] => some g
  | e :: rest =>
    match gstep g e with
    | none => none
    | some g2 => grun g2 rest

/-- The gate after lines 365-366 of `main`: both handles created, the lock
free, the completion signal empty, no task inside the function. -/
def ginit : Gate :=
  { pc := fun _ => Pc.idle, mtx := none, sem := false,
    mtx_uart2_tx := true, sem_uart2_tx := true }

/-- The task holds the lock at this program point (lines 96 to 103). -/
def Pc.locked : Pc → Bool
  | .idle => false
  | .line93 _ => false
  | _ => true

/-- The lock invariant: a task between line 96 and line 103 is the holder of
the lock. -/
def LockInv (g : Gate) : Prop := ∀ k : Nat, (g.pc k).locked = true → g.mtx = some k

end TxGate

/-! ## Lemmas on the C library model -/

theorem cstr_eq_self {l : List Nat} (h : ∀ c ∈ l, c ≠ 0) : cstr l = l := by
  induction l with
  | nil => rfl
  | cons c rest ih =>
    have hc : c ≠ 0 := h c (List.mem_cons_self _ _)
    have hr : ∀ d ∈ rest, d ≠ 0 := fun d hd => h d (List.mem_cons_of_mem _ hd)
    simp [cstr, hc, ih hr]

theorem cstr_nonzero (l : List Nat) : ∀ c ∈ cstr l, c ≠ 0 := by
  induction l with
  | nil => intro c hc; simp [cstr] at hc
  | cons a rest ih =>
    intro c hc
    by_cases ha : a = 0
    · simp [cstr, ha] at hc
    · simp only [cstr, ha, if_false, List.mem_cons] at hc
      rcases hc with rfl | hc
      · exact ha
      · exact ih c hc

theorem cstr_append_zero (l rest : List Nat) : cstr (l ++ 0 :: rest) = cstr l := by
  induction l with
  | nil => simp [cstr]
  | cons c tl ih =>
    by_cases hc : c = 0
    · simp [cstr, hc]
    · simp [cstr, hc, ih]

theorem strlen_eq_length_cstr (l : List Nat) : strlen l = (cstr l).length := by
  induction l with
  | nil => rfl
  | cons c rest ih =>
    by_cases hc : c = 0
    · simp [strlen, cstr, hc]
    · simp [strlen, cstr, hc, ih]

theorem take_strlen (l : List Nat) : l.take (strlen l) = cstr l := by
  induction l with
  | nil => rfl
  | cons c rest ih =>
    by_cases hc : c = 0
    · simp [strlen, cstr, hc]
    · simp [strlen, cstr, hc, ih]

theorem strcmp_eq_iff (a b : List Nat) : strcmp_eq a b = true ↔ cstr a = cstr b := by
  induction a generalizing b with
  | nil =>
    cases b with
    | nil => simp [strcmp_eq, cstr]
    | cons y ys =>
      by_cases hy : y = 0
      · simp [strcmp_eq, cstr, hy]
      · simp [strcmp_eq, cstr, hy]
  | cons x xs ih =>
    cases b with
    | nil =>
      by_cases hx : x = 0
      · simp [strcmp_eq, cstr, hx]
      · simp [strcmp_eq, cstr, hx]
    | cons y ys =>
      by_cases hxy : x = y
      · subst hxy
        by_cases hx : x = 0
        · simp [strcmp_eq, cstr, hx]
        · simp [strcmp_eq, cstr, hx, ih ys]
      · by_cases hx : x = 0
        · have hy : y ≠ 0 := fun h => hxy (hx.trans h.symm)
          have hy0 : ¬ (0 = y) := fun h => hy h.symm
          simp [strcmp_eq, cstr, hx, hy, hy0]
        · by_cases hy : y = 0
          · simp [strcmp_eq, cstr, hx, hy, hxy]
          · simp [strcmp_eq, cstr, hx, hy, hxy]

theorem toupper_ne_zero {c : Nat} (h : c ≠ 0) : toupper c ≠ 0 := by
  unfold toupper
  split <;> omega

theorem normalised_nonzero {l : List Nat} (h : ∀ c ∈ l, c ≠ 0) :
    ∀ c ∈ normalised l, c ≠ 0 := by
  intro c hc
  simp only [normalised, List.mem_map, List.mem_filter] at hc
  obtain ⟨d, ⟨hd, _⟩, rfl⟩ := hc
  exact toupper_ne_zero (h d hd)

theorem normalised_cons (c : Nat) (l : List Nat) :
    normalised (c :: l) = if isspace c then normalised l else toupper c :: normalised l := by
  by_cases h : isspace c = true <;> simp [normalised, List.filter_cons, h]

theorem normalised_append (a b : List Nat) :
    normalised (a ++ b) = normalised a ++ normalised b := by
  simp [normalised]

/-! ## The normalisation loop computes the specification's normal form -/

theorem handle_line_loop_eq (line cmd : List Nat) (h : cmd.length ≤ CMD_LINE_MAX - 1) :
    handle_line_loop line cmd = (cmd ++ normalised (cstr line)).take (CMD_LINE_MAX - 1) := by
  induction line generalizing cmd with
  | nil =>
    simp [handle_line_loop, cstr, normalised, List.take_of_length_le h]
  | cons c rest ih =>
    unfold handle_line_loop
    by_cases hc : c = 0
    · simp [hc, cstr, normalised, List.take_of_length_le h]
    · by_cases hk : cmd.length < CMD_LINE_MAX - 1
      · simp only [hc, hk, ne_eq, not_false_eq_true, and_self, if_true, cstr, if_false]
        rw [normalised_cons]
        by_cases hs : isspace c = true
        · simp only [hs, if_true]
          exact ih cmd h
        · simp only [hs, if_false]
          rw [ih (cmd ++ [toupper c]) (by simp; omega)]
          simp
      · have hlen : cmd.length = CMD_LINE_MAX - 1 := by omega
        simp only [hk, and_false, if_false]
        rw [List.take_append_of_le_length (by omega)]
        exact (List.take_of_length_le (by omega)).symm

theorem handle_line_loop_key (line : List Nat) : handle_line_loop line [] = key line := by
  rw [handle_line_loop_eq line [] (by simp)]
  simp [key]

theorem key_nonzero (line : List Nat) : ∀ c ∈ key line, c ≠ 0 := by
  intro c hc
  exact normalised_nonzero (cstr_nonzero line) c (List.mem_of_mem_take hc)

theorem strcmp_key (line lit : List Nat) (hlit : ∀ c ∈ lit, c ≠ 0) :
    strcmp_eq (handle_line_loop line []) lit = decide (key line = lit) := by
  rw [handle_line_loop_key]
  have h := strcmp_eq_iff (key line) lit
  rw [cstr_eq_self (key_nonzero line), cstr_eq_self hlit] at h
  by_cases hk : key line = lit
  · rw [h.mpr hk]
    simp [hk]
  · have : strcmp_eq (key line) lit ≠ true := fun ht => hk (h.mp ht)
    simp [hk, this]

theorem key_eq_of_normalised {line lit : List Nat} (h : normalised (cstr line) = lit)
    (hlen : lit.length ≤ CMD_LINE_MAX - 1) : key line = lit := by
  unfold key
  rw [h]
  exact List.take_of_length_le hlen

theorem normalised_of_key {line lit : List Nat} (h : key line = lit)
    (hlen : lit.length < CMD_LINE_MAX - 1) : normalised (cstr line) = lit := by
  unfold key at h
  have hl : (normalised (cstr line)).length < CMD_LINE_MAX - 1 := by
    have := congrArg List.length h
    rw [List.length_take] at this
    omega
  rw [List.take_of_length_le (by omega)] at h
  exact h

/-! ## Lemmas on the console output -/

theorem uart2_write_str_eq (str : List Nat) (s : State) (hnz : ∀ c ∈ str, c ≠ 0)
    (hne : str ≠ []) (hlen : str.length < 2 ^ 16) :
    uart2_write_str str s = { s with tx := s.tx ++ [str] } := by
  have hc : cstr str = str := cstr_eq_self hnz
  have hl : strlen str = str.length := by rw [strlen_eq_length_cstr, hc]
  have hpos : str.length ≠ 0 := fun h => hne (List.length_eq_zero.mp h)
  unfold uart2_write_str uart2_write_blocking_it
  rw [hl, Nat.mod_eq_of_lt hlen, if_neg hpos, List.take_length]

theorem utoa_digits_nonzero (fuel n : Nat) (acc : List Nat) (h : ∀ c ∈ acc, c ≠ 0) :
    ∀ c ∈ utoa_digits fuel n acc, c ≠ 0 := by
  induction fuel generalizing n acc with
  | zero => simpa [utoa_digits] using h
  | succ f ih =>
    have hcons : ∀ c ∈ (48 + n % 10) :: acc, c ≠ 0 := by
      intro c hc
      rcases List.mem_cons.mp hc with rfl | hc
      · omega
      · exact h c hc
    unfold utoa_digits
    split
    · exact hcons
    · exact ih _ _ hcons

theorem utoa_digits_length (fuel n : Nat) (acc : List Nat) :
    (utoa_digits fuel n acc).length ≤ fuel + acc.length := by
  induction fuel generalizing n acc with
  | zero => simp [utoa_digits]
  | succ f ih =>
    unfold utoa_digits
    split
    · simp only [List.length_cons]
      omega
    · have := ih (n / 10) ((48 + n % 10) :: acc)
      simp only [List.length_cons] at this
      omega

theorem fmt_unsigned_nonzero (n : Nat) : ∀ c ∈ fmt_unsigned n, c ≠ 0 :=
  utoa_digits_nonzero 10 _ [] (by simp)

theorem fmt_unsigned_length (n : Nat) : (fmt_unsigned n).length ≤ 10 := by
  have := utoa_digits_length 10 (n % 2 ^ 32) []
  simpa [fmt_unsigned] using this

theorem bytes_nonzero_of_decide (lit : List Nat) (h : lit.all (fun c => c != 0) = true) :
    ∀ c ∈ lit, c ≠ 0 := by
  intro c hc
  have := List.all_eq_true.mp h c hc
  simpa using this

theorem status_format_nonzero (s : State) : ∀ c ∈ status_format s, c ≠ 0 := by
  intro c hc
  simp only [status_format, List.mem_append] at hc
  have hlit : ∀ lit : List Nat, lit.all (fun c => c != 0) = true → c ∈ lit → c ≠ 0 :=
    fun lit h hm => bytes_nonzero_of_decide lit h c hm
  rcases hc with ((((((((((h | h) | h) | h) | h) | h) | h) | h) | h) | h) | h)
  · exact hlit _ (by decide) h
  · exact fmt_unsigned_nonzero _ c h
  · exact hlit _ (by decide) h
  · exact fmt_unsigned_nonzero _ c h
  · exact hlit _ (by decide) h
  · exact fmt_unsigned_nonzero _ c h
  · exact hlit _ (by decide) h
  · exact fmt_unsigned_nonzero _ c h
  · exact hlit _ (by decide) h
  · exact fmt_unsigned_nonzero _ c h
  · exact hlit _ (by decide) h

theorem status_line_nonzero (s : State) : ∀ c ∈ snprintf 160 (status_format s), c ≠ 0 :=
  fun c hc => status_format_nonzero s c (List.mem_of_mem_take hc)

theorem status_line_head (s : State) :
    ∃ tl, snprintf 160 (status_format s) = 69 :: 78 :: tl := by
  have hEN : bytes "EN=" = [69, 78, 61] := by decide
  have hfmt : ∃ tl, status_format s = 69 :: 78 :: tl := by
    unfold status_format
    rw [hEN]
    simp only [List.cons_append, List.append_assoc]
    exact ⟨_, rfl⟩
  obtain ⟨tl, h⟩ := hfmt
  exact ⟨tl.take 157, by rw [snprintf, h]; rfl⟩

theorem status_line_ne_err (s : State) : snprintf 160 (status_format s) ≠ err_text := by
  obtain ⟨tl, h⟩ := status_line_head s
  rw [h]
  have : err_text = 69 :: 82 :: (err_text.drop 2) := by decide
  rw [this]
  intro hc
  simp at hc

theorem status_line_length (s : State) : (snprintf 160 (status_format s)).length < 2 ^ 16 := by
  have : (snprintf 160 (status_format s)).length ≤ 159 := by
    simp [snprintf, List.length_take]
  omega

set_option maxRecDepth 8000 in
theorem help_text_nonzero (env : Env) : ∀ c ∈ help_text env, c ≠ 0 := by
  apply bytes_nonzero_of_decide
  unfold help_text
  cases env.tasksCompiled <;> cases env.runtimeCompiled <;> decide

set_option maxRecDepth 8000 in
theorem help_text_length (env : Env) : (help_text env).length < 2 ^ 16 := by
  unfold help_text
  cases env.tasksCompiled <;> cases env.runtimeCompiled <;> decide

set_option maxRecDepth 8000 in
theorem help_text_ne_nil (env : Env) : help_text env ≠ [] := by
  unfold help_text
  cases env.tasksCompiled <;> cases env.runtimeCompiled <;> decide

set_option maxRecDepth 8000 in
theorem help_text_ne_err (env : Env) : help_text env ≠ err_text := by
  unfold help_text
  cases env.tasksCompiled <;> cases env.runtimeCompiled <;> decide

theorem write_lit (lit : List Nat) (s : State) (h : lit.all (fun c => c != 0) = true)
    (hne : lit ≠ []) (hlen : lit.length < 2 ^ 16) :
    uart2_write_str lit s = { s with tx := s.tx ++ [lit] } :=
  uart2_write_str_eq lit s (bytes_nonzero_of_decide lit h) hne hlen

theorem print_help_eq (env : Env) (s : State) :
    print_help env s = { s with tx := s.tx ++ [help_text env] } :=
  uart2_write_str_eq _ s (help_text_nonzero env) (help_text_ne_nil env) (help_text_length env)

theorem write_status_eq (s : State) :
    uart2_write_str (snprintf 160 (status_format s)) s
      = { s with tx := s.tx ++ [snprintf 160 (status_format s)] } := by
  apply uart2_write_str_eq _ s (status_line_nonzero s) _ (status_line_length s)
  obtain ⟨tl, h⟩ := status_line_head s
  rw [h]
  simp

/-- The dispatcher as a function of the dispatch key (the chain of `strcmp`
tests of lines 218-265 with each test decided by `key line`). -/
theorem handle_line_by_key (env : Env) (line : List Nat) (s : State) :
    handle_line env line s =
      if key line = bytes "HELP" then print_help env s
      else if key line = bytes "CLEAR" then uart2_write_str (bytes "\x1bc") s
      else if key line = bytes "ON" then uart2_write_str (bytes "OK ON\r\n") (motors_on s)
      else if key line = bytes "OFF" then uart2_write_str (bytes "OK OFF\r\n") (motors_off s)
      else if key line = bytes "STATUS" then uart2_write_str (snprintf 160 (status_format s)) s
      else if env.tasksCompiled = true ∧ key line = bytes "TASKS" then
        uart2_write_str (bytes "Name\t\tState Prio Stack Num\r\n" ++ env.vTaskList) s
      else if env.runtimeCompiled = true ∧ key line = bytes "RUNTIME" then
        uart2_write_str (bytes "Name\t\tAbs Time\t% Time\r\n" ++ env.vTaskGetRunTimeStats) s
      else uart2_write_str err_text s := by
  have hH := strcmp_key line (bytes "HELP") (bytes_nonzero_of_decide _ (by decide))
  have hC := strcmp_key line (bytes "CLEAR") (bytes_nonzero_of_decide _ (by decide))
  have hOn := strcmp_key line (bytes "ON") (bytes_nonzero_of_decide _ (by decide))
  have hOff := strcmp_key line (bytes "OFF") (bytes_nonzero_of_decide _ (by decide))
  have hS := strcmp_key line (bytes "STATUS") (bytes_nonzero_of_decide _ (by decide))
  have hT := strcmp_key line (bytes "TASKS") (bytes_nonzero_of_decide _ (by decide))
  have hR := strcmp_key line (bytes "RUNTIME") (bytes_nonzero_of_decide _ (by decide))
  unfold handle_line
  simp only [hH, hC, hOn, hOff, hS, hT, hR, decide_eq_true_eq, Bool.and_eq_true]

/-! ## Motor lemmas -/

theorem motors_on_eq (s : State) :
    motors_on s =
      { s with OUT_1 := .GPIO_PIN_RESET, OUT_2 := .GPIO_PIN_SET,
               OUT_3 := .GPIO_PIN_RESET, OUT_4 := .GPIO_PIN_SET,
               CCR1 := min MOTOR_PWM_CCR_FIXED s.ARR, CCR2 := min MOTOR_PWM_CCR_FIXED s.ARR,
               motor_enabled := 1 } := by
  have hmin : (if MOTOR_PWM_CCR_FIXED > s.ARR then s.ARR else MOTOR_PWM_CCR_FIXED)
      = min MOTOR_PWM_CCR_FIXED s.ARR := by
    unfold MOTOR_PWM_CCR_FIXED
    split <;> omega
  simp only [motors_on, motors_forward_pins, motors_set_pwm_ccr, HAL_GPIO_WritePin,
    __HAL_TIM_GET_AUTORELOAD, __HAL_TIM_SET_COMPARE, hmin]

theorem motors_off_eq (s : State) :
    motors_off s =
      { s with OUT_1 := .GPIO_PIN_RESET, OUT_2 := .GPIO_PIN_RESET,
               OUT_3 := .GPIO_PIN_RESET, OUT_4 := .GPIO_PIN_RESET,
               CCR1 := 0, CCR2 := 0, motor_enabled := 0 } := by
  have h0 : (if 0 > s.ARR then s.ARR else 0) = 0 := by
    split <;> omega
  simp only [motors_off, motors_safe_off_pins, motors_set_pwm_ccr, HAL_GPIO_WritePin,
    __HAL_TIM_GET_AUTORELOAD, __HAL_TIM_SET_COMPARE, h0]

theorem motors_off_motors_on (s : State) : motors_off (motors_on s) = motors_off s := by
  simp only [motors_off_eq, motors_on_eq]

theorem motors_off_iterate_on (s : State) (n : Nat) :
    motors_off (motors_on^[n] s) = motors_off s := by
  induction n with
  | zero => rfl
  | succ k ih => rw [Function.iterate_succ_apply', motors_off_motors_on, ih]

/-! ## Dispatcher lemmas -/

theorem handle_line_congr (env : Env) (buf1 buf2 : List Nat) (s : State)
    (h : key buf1 = key buf2) : handle_line env buf1 s = handle_line env buf2 s := by
  rw [handle_line_by_key, handle_line_by_key, h]

theorem sameLetter_isspace {c d : Nat} (h : sameLetter c d) : isspace c = isspace d := by
  rcases h with rfl | ⟨h1, h2, rfl⟩ | ⟨h1, h2, rfl⟩
  · rfl
  · have hc : isspace (d + 32) = false := by simp [isspace]; omega
    have hd : isspace d = false := by simp [isspace]; omega
    rw [hc, hd]
  · have hc : isspace (c + 32) = false := by simp [isspace]; omega
    have hd : isspace c = false := by simp [isspace]; omega
    rw [hc, hd]

theorem sameLetter_toupper {c d : Nat} (h : sameLetter c d) : toupper c = toupper d := by
  rcases h with rfl | ⟨h1, h2, rfl⟩ | ⟨h1, h2, rfl⟩
  · rfl
  · have hd : ¬ (97 ≤ d ∧ d ≤ 122) := by omega
    unfold toupper
    rw [if_pos ⟨h1, h2⟩, if_neg hd]
    omega
  · have hc : ¬ (97 ≤ c ∧ c ≤ 122) := by omega
    unfold toupper
    rw [if_neg hc, if_pos ⟨h1, h2⟩]
    omega

theorem WsCaseEquiv.normalised_eq {a b : List Nat} (h : WsCaseEquiv a b) :
    normalised a = normalised b := by
  induction h with
  | nil => rfl
  | ws_left c a b hc _ ih => rw [normalised_cons, hc, if_pos rfl, ih]
  | ws_right c a b hc _ ih => rw [normalised_cons, hc, if_pos rfl, ih]
  | letter c d a b hcd _ ih =>
    rw [normalised_cons, normalised_cons, sameLetter_isspace hcd, sameLetter_toupper hcd, ih]

theorem handle_line_HELP (env : Env) (buf : List Nat) (s : State)
    (h : normalised (cstr buf) = bytes "HELP") :
    handle_line env buf s = { s with tx := s.tx ++ [help_text env] } := by
  rw [handle_line_by_key, key_eq_of_normalised h (by decide), if_pos rfl, print_help_eq]

theorem handle_line_CLEAR (env : Env) (buf : List Nat) (s : State)
    (h : normalised (cstr buf) = bytes "CLEAR") :
    handle_line env buf s = { s with tx := s.tx ++ [bytes "\x1bc"] } := by
  rw [handle_line_by_key, key_eq_of_normalised h (by decide), if_neg (by decide), if_pos rfl,
    write_lit _ _ (by decide) (by decide) (by decide)]

theorem handle_line_ON (env : Env) (buf : List Nat) (s : State)
    (h : normalised (cstr buf) = bytes "ON") :
    handle_line env buf s = { motors_on s with tx := s.tx ++ [bytes "OK ON\r\n"] } := by
  rw [handle_line_by_key, key_eq_of_normalised h (by decide), if_neg (by decide),
    if_neg (by decide), if_pos rfl, write_lit _ _ (by decide) (by decide) (by decide),
    motors_on_eq]

theorem handle_line_OFF (env : Env) (buf : List Nat) (s : State)
    (h : normalised (cstr buf) = bytes "OFF") :
    handle_line env buf s = { motors_off s with tx := s.tx ++ [bytes "OK OFF\r\n"] } := by
  rw [handle_line_by_key, key_eq_of_normalised h (by decide), if_neg (by decide),
    if_neg (by decide), if_neg (by decide), if_pos rfl,
    write_lit _ _ (by decide) (by decide) (by decide), motors_off_eq]

theorem handle_line_STATUS (env : Env) (buf : List Nat) (s : State)
    (h : normalised (cstr buf) = bytes "STATUS") :
    handle_line env buf s = { s with tx := s.tx ++ [snprintf 160 (status_format s)] } := by
  rw [handle_line_by_key, key_eq_of_normalised h (by decide), if_neg (by decide),
    if_neg (by decide), if_neg (by decide), if_neg (by decide), if_pos rfl, write_status_eq]

/-! ## Console loop lemmas -/

theorem echo_eq (c : Nat) (s : State) :
    uart2_write_blocking_it [c] 1 s = { s with tx := s.tx ++ [[c]] } := by
  simp [uart2_write_blocking_it]

theorem step_plain_room (env : Env) (s : State) (c : Nat) (hc : plainByte c)
    (hlen : s.cmd_len < CMD_LINE_MAX - 1) :
    shell_task_step env s c =
      { s with cmd_line := s.cmd_line.set s.cmd_len c, cmd_len := s.cmd_len + 1,
               tx := s.tx ++ [[c]] } := by
  obtain ⟨h13, h10, h8, h127⟩ := hc
  simp only [shell_task_step, echo_eq, h13, h10, h8, h127, or_self, if_false, hlen, if_true]

theorem step_plain_full (env : Env) (s : State) (c : Nat) (hc : plainByte c)
    (hlen : ¬ s.cmd_len < CMD_LINE_MAX - 1) :
    shell_task_step env s c = { s with tx := s.tx ++ [[c]] } := by
  obtain ⟨h13, h10, h8, h127⟩ := hc
  simp only [shell_task_step, echo_eq, h13, h10, h8, h127, or_self, if_false, hlen]

theorem take_succ_set (l : List Nat) (n c : Nat) (h : n < l.length) :
    (l.set n c).take (n + 1) = l.take n ++ [c] := by
  rw [List.set_eq_take_cons_drop c h, List.take_append_eq_append_take]
  simp [List.length_take, Nat.min_eq_left (Nat.le_of_lt h)]

/-- Collecting plain bytes: the buffer holds the retained bytes, the length
saturates at 63, and the only output is the echo of every byte. -/
theorem run_plain (env : Env) (input : List Nat) :
    ∀ s : State, (∀ c ∈ input, plainByte c) → s.cmd_len ≤ CMD_LINE_MAX - 1 →
      s.cmd_line.length = CMD_LINE_MAX →
      ∃ buf : List Nat, buf.length = CMD_LINE_MAX ∧
        buf.take (min (CMD_LINE_MAX - 1) (s.cmd_len + input.length))
          = s.cmd_line.take s.cmd_len ++ input.take (CMD_LINE_MAX - 1 - s.cmd_len) ∧
        shell_task_run env s input =
          { s with cmd_line := buf,
                   cmd_len := min (CMD_LINE_MAX - 1) (s.cmd_len + input.length),
                   tx := s.tx ++ echoes input } := by
  induction input with
  | nil =>
    intro s _ hlen hbuf
    refine ⟨s.cmd_line, hbuf, ?_, ?_⟩
    · simp [Nat.min_eq_right hlen]
    · simp [shell_task_run, echoes, Nat.min_eq_right hlen]
  | cons c rest ih =>
    intro s hin hlen hbuf
    have hc : plainByte c := hin c (List.mem_cons_self _ _)
    have hrest : ∀ d ∈ rest, plainByte d := fun d hd => hin d (List.mem_cons_of_mem _ hd)
    have hrun : shell_task_run env s (c :: rest)
        = shell_task_run env (shell_task_step env s c) rest := rfl
    rw [hrun]
    by_cases hroom : s.cmd_len < CMD_LINE_MAX - 1
    · rw [step_plain_room env s c hc hroom]
      have hlt : s.cmd_len < s.cmd_line.length := by
        rw [hbuf]; unfold CMD_LINE_MAX at hroom ⊢; omega
      obtain ⟨buf, hb1, hb2, hb3⟩ := ih
        { s with cmd_line := s.cmd_line.set s.cmd_len c, cmd_len := s.cmd_len + 1,
                 tx := s.tx ++ [[c]] } hrest (by simpa using hroom) (by simpa using hbuf)
      refine ⟨buf, hb1, ?_, ?_⟩
      · simp only [List.length_cons] at hb2 ⊢
        have e1 : s.cmd_len + (rest.length + 1) = s.cmd_len + 1 + rest.length := by omega
        have e2 : CMD_LINE_MAX - 1 - s.cmd_len = (CMD_LINE_MAX - 1 - (s.cmd_len + 1)) + 1 := by
          omega
        rw [e1, hb2, take_succ_set _ _ _ hlt, e2, List.take_succ_cons]
        simp
      · rw [hb3]
        simp only [List.length_cons, echoes, List.map_cons, List.append_assoc,
          List.singleton_append]
        have e1 : s.cmd_len + 1 + rest.length = s.cmd_len + (rest.length + 1) := by omega
        rw [e1]
    · rw [step_plain_full env s c hc hroom]
      have hfull : s.cmd_len = CMD_LINE_MAX - 1 := by omega
      obtain ⟨buf, hb1, hb2, hb3⟩ := ih { s with tx := s.tx ++ [[c]] } hrest hlen hbuf
      refine ⟨buf, hb1, ?_, ?_⟩
      · simp only [List.length_cons] at hb2 ⊢
        have m1 : min (CMD_LINE_MAX - 1) (s.cmd_len + rest.length) = CMD_LINE_MAX - 1 := by
          omega
        have m2 : min (CMD_LINE_MAX - 1) (s.cmd_len + (rest.length + 1)) = CMD_LINE_MAX - 1 := by
          omega
        rw [m1] at hb2
        rw [m2, hb2, hfull]
        simp
      · rw [hb3]
        simp only [List.length_cons, echoes, List.map_cons, List.append_assoc,
          List.singleton_append]
        have m1 : min (CMD_LINE_MAX - 1) (s.cmd_len + rest.length)
            = min (CMD_LINE_MAX - 1) (s.cmd_len + (rest.length + 1)) := by omega
        rw [m1]

theorem step_terminator (env : Env) (s : State) (c : Nat) (hc : c = 13 ∨ c = 10)
    (hlen : 0 < s.cmd_len) :
    shell_task_step env s c =
      uart2_write_str (bytes ">> ")
        { handle_line env (s.cmd_line.set s.cmd_len 0)
            { s with tx := s.tx ++ [[c], bytes "\r\n"],
                     cmd_line := s.cmd_line.set s.cmd_len 0,
                     dispatched := s.dispatched ++ [s.cmd_line.set s.cmd_len 0] } with
          cmd_len := 0, cmd_line := List.replicate CMD_LINE_MAX 0 } := by
  have hw : ∀ t : State, uart2_write_str (bytes "\r\n") t
      = { t with tx := t.tx ++ [bytes "\r\n"] } :=
    fun t => write_lit _ t (by decide) (by decide) (by decide)
  simp only [shell_task_step, echo_eq, hc, if_true, hw, gt_iff_lt, hlen, List.append_assoc,
    List.singleton_append]

theorem step_backspace_empty (env : Env) (s : State) (c : Nat) (hc : c = 127 ∨ c = 8)
    (hlen : s.cmd_len = 0) :
    shell_task_step env s c = { s with tx := s.tx ++ [[c]] } := by
  have hnt : ¬ (c = 13 ∨ c = 10) := by omega
  simp only [shell_task_step, echo_eq, hnt, hc, if_false, if_true, hlen, gt_iff_lt,
    Nat.lt_irrefl]

theorem handle_line_ERR (env : Env) (buf : List Nat) (s : State)
    (h : normalised (cstr buf) ∉ command_table env) :
    handle_line env buf s = { s with tx := s.tx ++ [err_text] } := by
  have hne : ∀ lit : List Nat, lit ∈ command_table env → lit.length < CMD_LINE_MAX - 1 →
      key buf ≠ lit := by
    intro lit hmem hlen hk
    exact h (by rw [normalised_of_key hk hlen]; exact hmem)
  have hH : key buf ≠ bytes "HELP" := hne _ (by simp [command_table]) (by decide)
  have hC : key buf ≠ bytes "CLEAR" := hne _ (by simp [command_table]) (by decide)
  have hOn : key buf ≠ bytes "ON" := hne _ (by simp [command_table]) (by decide)
  have hOff : key buf ≠ bytes "OFF" := hne _ (by simp [command_table]) (by decide)
  have hS : key buf ≠ bytes "STATUS" := hne _ (by simp [command_table]) (by decide)
  have hT : ¬ (env.tasksCompiled = true ∧ key buf = bytes "TASKS") := by
    rintro ⟨ht, hk⟩
    exact hne _ (by simp [command_table, ht]) (by decide) hk
  have hR : ¬ (env.runtimeCompiled = true ∧ key buf = bytes "RUNTIME") := by
    rintro ⟨ht, hk⟩
    exact hne _ (by simp [command_table, ht]) (by decide) hk
  rw [handle_line_by_key, if_neg hH, if_neg hC, if_neg hOn, if_neg hOff, if_neg hS, if_neg hT,
    if_neg hR]
  exact write_lit _ s (by decide) (by decide) (by decide)

theorem uart2_write_str_frame (str : List Nat) (s : State) :
    ∃ t, uart2_write_str str s = { s with tx := t } := by
  unfold uart2_write_str uart2_write_blocking_it
  split
  · exact ⟨s.tx, rfl⟩
  · exact ⟨_, rfl⟩

/-- The dispatcher touches the output and the motor state only: the line
buffer, its length, the period register and the ghost trace stay as they are. -/
theorem handle_line_frame (env : Env) (buf : List Nat) (s : State) :
    (handle_line env buf s).cmd_line = s.cmd_line ∧
    (handle_line env buf s).cmd_len = s.cmd_len ∧
    (handle_line env buf s).dispatched = s.dispatched ∧
    (handle_line env buf s).ARR = s.ARR := by
  have hs : ∀ (str : List Nat) (t : State),
      (uart2_write_str str t).cmd_line = t.cmd_line ∧
      (uart2_write_str str t).cmd_len = t.cmd_len ∧
      (uart2_write_str str t).dispatched = t.dispatched ∧
      (uart2_write_str str t).ARR = t.ARR := by
    intro str t
    obtain ⟨w, hw⟩ := uart2_write_str_frame str t
    rw [hw]
    exact ⟨rfl, rfl, rfl, rfl⟩
  have hon := hs (bytes "OK ON\r\n") (motors_on s)
  have hoff := hs (bytes "OK OFF\r\n") (motors_off s)
  rw [motors_on_eq] at hon
  rw [motors_off_eq] at hoff
  rw [handle_line_by_key]
  repeat' split
  · exact hs _ s
  · exact hs _ s
  · rw [motors_on_eq]; exact hon
  · rw [motors_off_eq]; exact hoff
  · exact hs _ s
  · exact hs _ s
  · exact hs _ s
  · exact hs _ s

/-- A whole line: plain bytes collected from an empty buffer, then CR.  The
dispatcher is called once, on the buffer holding the first 63 bytes and a
terminator, from a state whose output so far is the echoes and the line break;
afterwards the buffer is cleared and the prompt is written. -/
theorem run_line (env : Env) (s : State) (input : List Nat) (h0 : s.cmd_len = 0)
    (hbuf : s.cmd_line.length = CMD_LINE_MAX) (hne : input ≠ [])
    (hin : ∀ c ∈ input, plainByte c) :
    ∃ tail : List Nat,
      (input.take (CMD_LINE_MAX - 1) ++ 0 :: tail).length = CMD_LINE_MAX ∧
      shell_task_run env s (input ++ [13]) =
        uart2_write_str (bytes ">> ")
          { handle_line env (input.take (CMD_LINE_MAX - 1) ++ 0 :: tail)
              { s with tx := s.tx ++ echoes input ++ [[13], bytes "\r\n"],
                       cmd_line := input.take (CMD_LINE_MAX - 1) ++ 0 :: tail,
                       cmd_len := min (CMD_LINE_MAX - 1) input.length,
                       dispatched := s.dispatched
                         ++ [input.take (CMD_LINE_MAX - 1) ++ 0 :: tail] } with
            cmd_len := 0, cmd_line := List.replicate CMD_LINE_MAX 0 } := by
  obtain ⟨buf, hb1, hb2, hb3⟩ := run_plain env input s hin (by rw [h0]; exact Nat.zero_le _) hbuf
  rw [h0] at hb2 hb3
  simp only [Nat.zero_add, List.take_zero, List.nil_append, Nat.sub_zero] at hb2 hb3
  have hpos : 0 < input.length := List.length_pos.mpr hne
  have hn : 0 < min (CMD_LINE_MAX - 1) input.length := by
    unfold CMD_LINE_MAX; omega
  have hlt : min (CMD_LINE_MAX - 1) input.length < buf.length := by
    rw [hb1]; unfold CMD_LINE_MAX; omega
  have hL : buf.set (min (CMD_LINE_MAX - 1) input.length) 0
      = input.take (CMD_LINE_MAX - 1)
        ++ 0 :: buf.drop (min (CMD_LINE_MAX - 1) input.length + 1) := by
    rw [List.set_eq_take_cons_drop 0 hlt, hb2]
  refine ⟨buf.drop (min (CMD_LINE_MAX - 1) input.length + 1), ?_, ?_⟩
  · rw [← hL, List.length_set, hb1]
  · have hrun : shell_task_run env s (input ++ [13])
        = shell_task_step env (shell_task_run env s input) 13 := by
      simp [shell_task_run, List.foldl_append]
    rw [hrun, hb3, step_terminator env _ 13 (Or.inl rfl) hn]
    simp only [hL, List.append_assoc]

/-! ## Claims on the command dispatcher -/

/-- C1: for every line buffer `buf` whose C string normalises (whitespace
removed, the rest uppercased) to HELP, CLEAR, ON, OFF or STATUS, `handle_line`
performs that entry's action and nothing else: HELP only writes the command
list, CLEAR only writes ESC c, ON runs `motors_on` and writes "OK ON", OFF runs
`motors_off` and writes "OK OFF", STATUS only writes the status line; in each
case exactly one text is written and it is not the error text. -/
theorem C1_dispatch_exact (env : Env) (buf : List Nat) (s : State) :
    (normalised (cstr buf) = bytes "HELP" →
      handle_line env buf s = { s with tx := s.tx ++ [help_text env] }) ∧
    (normalised (cstr buf) = bytes "CLEAR" →
      handle_line env buf s = { s with tx := s.tx ++ [bytes "\x1bc"] }) ∧
    (normalised (cstr buf) = bytes "ON" →
      handle_line env buf s = { motors_on s with tx := s.tx ++ [bytes "OK ON\r\n"] }) ∧
    (normalised (cstr buf) = bytes "OFF" →
      handle_line env buf s = { motors_off s with tx := s.tx ++ [bytes "OK OFF\r\n"] }) ∧
    (normalised (cstr buf) = bytes "STATUS" →
      handle_line env buf s = { s with tx := s.tx ++ [snprintf 160 (status_format s)] }) ∧
    (normalised (cstr buf) ∈
        [bytes "HELP", bytes "CLEAR", bytes "ON", bytes "OFF", bytes "STATUS"] →
      ∃ w, (handle_line env buf s).tx = s.tx ++ [w] ∧ w ≠ err_text) := by
  refine ⟨handle_line_HELP env buf s, handle_line_CLEAR env buf s, handle_line_ON env buf s,
    handle_line_OFF env buf s, handle_line_STATUS env buf s, ?_⟩
  intro hmem
  simp only [List.mem_cons, List.mem_singleton, List.not_mem_nil, or_false] at hmem
  rcases hmem with h | h | h | h | h
  · exact ⟨_, by rw [handle_line_HELP env buf s h], help_text_ne_err env⟩
  · exact ⟨_, by rw [handle_line_CLEAR env buf s h], by decide⟩
  · exact ⟨_, by rw [handle_line_ON env buf s h], by decide⟩
  · exact ⟨_, by rw [handle_line_OFF env buf s h], by decide⟩
  · exact ⟨_, by rw [handle_line_STATUS env buf s h], status_line_ne_err s⟩

/-- Witness of C1: the line " o N " normalises to ON and is dispatched to the ON
action. -/
theorem C1_dispatch_exact_witness :
    normalised (cstr (bytes " o N ")) = bytes "ON" ∧
    handle_line env0 (bytes " o N ") (boot 9999)
      = { motors_on (boot 9999) with tx := (boot 9999).tx ++ [bytes "OK ON\r\n"] } :=
  ⟨by decide, (C1_dispatch_exact env0 (bytes " o N ") (boot 9999)).2.2.1 (by decide)⟩

/-- C3: whitespace and letter case are insignificant for command matching: if
the C strings of two line buffers differ only by inserted or removed whitespace
characters and by the case of letters, `handle_line` gives the same resulting
state (same action on the motor state, same response) for both. -/
theorem C3_whitespace_case_insignificant (env : Env) (buf1 buf2 : List Nat) (s : State)
    (h : WsCaseEquiv (cstr buf1) (cstr buf2)) :
    handle_line env buf1 s = handle_line env buf2 s := by
  apply handle_line_congr
  unfold key
  rw [h.normalised_eq]

/-- Witness of C3: " S t A t U s " differs from "STATUS" only by whitespace and
letter case, and both are dispatched alike. -/
theorem C3_whitespace_case_insignificant_witness :
    WsCaseEquiv (cstr (bytes " S t A t U s ")) (cstr (bytes "STATUS")) ∧
    handle_line env0 (bytes " S t A t U s ") (boot 9999)
      = handle_line env0 (bytes "STATUS") (boot 9999) :=
  have h : WsCaseEquiv (cstr (bytes " S t A t U s ")) (cstr (bytes "STATUS")) := by
    have e1 : cstr (bytes " S t A t U s ")
        = [32, 83, 32, 116, 32, 65, 32, 116, 32, 85, 32, 115, 32] := by decide
    have e2 : cstr (bytes "STATUS") = [83, 84, 65, 84, 85, 83] := by decide
    rw [e1, e2]
    repeat first
      | exact WsCaseEquiv.nil
      | refine WsCaseEquiv.ws_left _ _ _ (by decide) ?_
      | refine WsCaseEquiv.letter _ _ _ _ (by decide) ?_
  ⟨h, C3_whitespace_case_insignificant env0 _ _ (boot 9999) h⟩

/-- C4: for every state and every line buffer whose C string normalises to HELP
or CLEAR, `handle_line` leaves the enabled flag, both duty registers and all
four direction outputs unchanged. -/
theorem C4_help_clear_keep_motor (env : Env) (buf : List Nat) (s : State)
    (h : normalised (cstr buf) = bytes "HELP" ∨ normalised (cstr buf) = bytes "CLEAR") :
    (handle_line env buf s).motor = s.motor ∧
    (handle_line env buf s).motor_enabled = s.motor_enabled ∧
    (handle_line env buf s).CCR1 = s.CCR1 ∧ (handle_line env buf s).CCR2 = s.CCR2 ∧
    (handle_line env buf s).OUT_1 = s.OUT_1 ∧ (handle_line env buf s).OUT_2 = s.OUT_2 ∧
    (handle_line env buf s).OUT_3 = s.OUT_3 ∧ (handle_line env buf s).OUT_4 = s.OUT_4 := by
  rcases h with h | h
  · rw [handle_line_HELP env buf s h]
    exact ⟨rfl, rfl, rfl, rfl, rfl, rfl, rfl, rfl⟩
  · rw [handle_line_CLEAR env buf s h]
    exact ⟨rfl, rfl, rfl, rfl, rfl, rfl, rfl, rfl⟩

/-- Witness of C4: "Clear" with the motor running leaves the motor state as it
was. -/
theorem C4_help_clear_keep_motor_witness :
    (normalised (cstr (bytes "Clear")) = bytes "HELP" ∨
      normalised (cstr (bytes "Clear")) = bytes "CLEAR") ∧
    (handle_line env0 (bytes "Clear") (motors_on (boot 9999))).motor
      = (motors_on (boot 9999)).motor :=
  ⟨by decide,
   (C4_help_clear_keep_motor env0 (bytes "Clear") (motors_on (boot 9999)) (by decide)).1⟩

/-- C2 as stated fails: the received bytes 'o', 'n', NUL followed by CR
normalise to a three-byte string that is no table entry, yet the console turns
the motor on (the dispatcher reads the buffer up to the NUL) and writes no
error text. -/
theorem C2_counterexample :
    (1 ≤ [111, 110, 0].length ∧ [111, 110, 0].length ≤ 63) ∧
    (∀ c ∈ [111, 110, 0], plainByte c) ∧
    normalised [111, 110, 0] ∉ command_table env0 ∧
    (shell_task_run env0 (boot 9999) ([111, 110, 0] ++ [13])).motor ≠ (boot 9999).motor ∧
    (shell_task_run env0 (boot 9999) ([111, 110, 0] ++ [13])).motor_enabled = 1 ∧
    err_text ∉ (shell_task_run env0 (boot 9999) ([111, 110, 0] ++ [13])).tx ∧
    bytes "OK ON\r\n" ∈ (shell_task_run env0 (boot 9999) ([111, 110, 0] ++ [13])).tx := by
  decide

/-- C2 amended: starting from an empty line buffer, for every sequence of 1 to
63 received bytes other than CR, LF, BS and DEL followed by CR, if the
normalised form of the bytes before the first NUL byte (of the whole sequence
when it holds no NUL) is not a table entry, the console writes, after the
echoes and the line break, the error response and the prompt, and the motor
state is unchanged. -/
theorem C2_unknown_command_error (env : Env) (s : State) (input : List Nat)
    (h0 : s.cmd_len = 0) (hbuf : s.cmd_line.length = CMD_LINE_MAX)
    (h1 : 1 ≤ input.length) (h63 : input.length ≤ CMD_LINE_MAX - 1)
    (hin : ∀ c ∈ input, plainByte c)
    (hkey : normalised (cstr input) ∉ command_table env) :
    (shell_task_run env s (input ++ [13])).tx
      = s.tx ++ echoes input ++ [[13], bytes "\r\n", err_text, bytes ">> "] ∧
    (shell_task_run env s (input ++ [13])).motor = s.motor := by
  have hne : input ≠ [] := by
    intro h; rw [h] at h1; simp at h1
  obtain ⟨tail, _, hrun⟩ := run_line env s input h0 hbuf hne hin
  rw [List.take_of_length_le h63] at hrun
  have hk : normalised (cstr (input ++ 0 :: tail)) ∉ command_table env := by
    rw [cstr_append_zero]; exact hkey
  rw [hrun, handle_line_ERR env _ _ hk, write_lit _ _ (by decide) (by decide) (by decide)]
  refine ⟨?_, rfl⟩
  simp

/-- Witness of C2 amended: "xyz" followed by CR gives the error response and the
motor state is unchanged. -/
theorem C2_unknown_command_error_witness :
    (shell_task_run env0 (boot 9999) (bytes "xyz" ++ [13])).tx
      = (boot 9999).tx ++ echoes (bytes "xyz") ++ [[13], bytes "\r\n", err_text, bytes ">> "] ∧
    (shell_task_run env0 (boot 9999) (bytes "xyz" ++ [13])).motor = (boot 9999).motor :=
  C2_unknown_command_error env0 (boot 9999) (bytes "xyz") (by decide) (by decide) (by decide)
    (by decide) (by decide) (by decide)

/-! ## Claims on the motor controller -/

/-- C5: for every state (so every motor state and every period register value)
and every n, running `motors_on` n times and then `motors_off` once leaves both
duty registers at 0, the four direction outputs reset and the enabled flag 0,
and the resulting state is the one `motors_off` alone produces. -/
theorem C5_off_after_any_on (s : State) (n : Nat) :
    (motors_off (motors_on^[n] s)).CCR1 = 0 ∧
    (motors_off (motors_on^[n] s)).CCR2 = 0 ∧
    (motors_off (motors_on^[n] s)).OUT_1 = .GPIO_PIN_RESET ∧
    (motors_off (motors_on^[n] s)).OUT_2 = .GPIO_PIN_RESET ∧
    (motors_off (motors_on^[n] s)).OUT_3 = .GPIO_PIN_RESET ∧
    (motors_off (motors_on^[n] s)).OUT_4 = .GPIO_PIN_RESET ∧
    (motors_off (motors_on^[n] s)).motor_enabled = 0 ∧
    motors_off (motors_on^[n] s) = motors_off s := by
  rw [motors_off_iterate_on, motors_off_eq]
  exact ⟨rfl, rfl, rfl, rfl, rfl, rfl, rfl, rfl⟩

/-- C6: `motors_on` is idempotent: for every state, calling it twice gives the
same state (direction outputs, duty registers, enabled flag and all the rest)
as calling it once. -/
theorem C6_motors_on_idempotent (s : State) : motors_on (motors_on s) = motors_on s := by
  simp only [motors_on_eq]

/-- C7 as stated fails: with the period register at 1000, `motors_on` leaves
both duty registers at 1000, not at the fixed constant 4000. -/
theorem C7_counterexample :
    (motors_on (boot 1000)).CCR1 = 1000 ∧ (motors_on (boot 1000)).CCR2 = 1000 ∧
    (motors_on (boot 1000)).CCR1 ≠ MOTOR_PWM_CCR_FIXED ∧
    (motors_on (boot 1000)).CCR2 ≠ MOTOR_PWM_CCR_FIXED := by
  decide

/-- C7 amended: after `motors_on` the direction outputs are in the forward
configuration (OUT_1 reset, OUT_2 set, OUT_3 reset, OUT_4 set), the enabled flag
is 1, and both duty registers hold the smaller of the fixed constant 4000 and
the period register ARR; they hold 4000 whenever ARR is at least 4000. -/
theorem C7_motors_on_clamped (s : State) :
    (motors_on s).OUT_1 = .GPIO_PIN_RESET ∧ (motors_on s).OUT_2 = .GPIO_PIN_SET ∧
    (motors_on s).OUT_3 = .GPIO_PIN_RESET ∧ (motors_on s).OUT_4 = .GPIO_PIN_SET ∧
    (motors_on s).motor_enabled = 1 ∧
    (motors_on s).CCR1 = min MOTOR_PWM_CCR_FIXED s.ARR ∧
    (motors_on s).CCR2 = min MOTOR_PWM_CCR_FIXED s.ARR ∧
    (MOTOR_PWM_CCR_FIXED ≤ s.ARR →
      (motors_on s).CCR1 = 4000 ∧ (motors_on s).CCR2 = 4000) := by
  rw [motors_on_eq]
  refine ⟨rfl, rfl, rfl, rfl, rfl, rfl, rfl, ?_⟩
  intro h
  have hm : min MOTOR_PWM_CCR_FIXED s.ARR = 4000 := by
    unfold MOTOR_PWM_CCR_FIXED at h ⊢
    omega
  exact ⟨hm, hm⟩

/-- Witness of C7 amended: with the period register at 9999 both duty registers
hold 4000 after `motors_on`. -/
theorem C7_motors_on_clamped_witness :
    MOTOR_PWM_CCR_FIXED ≤ (boot 9999).ARR ∧
    (motors_on (boot 9999)).CCR1 = 4000 ∧ (motors_on (boot 9999)).CCR2 = 4000 :=
  ⟨by decide, (C7_motors_on_clamped (boot 9999)).2.2.2.2.2.2.2 (by decide)⟩

/-- C8: for every requested duty `ccr` and every period register value,
`motors_set_pwm_ccr ccr` writes `min ccr ARR` to both duty registers and leaves
the period register alone; so afterwards CCR1 = CCR2 ≤ ARR, and a request above
the period leaves exactly the period in both registers. -/
theorem C8_set_pwm_clamps (ccr : Nat) (s : State) :
    (motors_set_pwm_ccr ccr s).CCR1 = min ccr s.ARR ∧
    (motors_set_pwm_ccr ccr s).CCR2 = min ccr s.ARR ∧
    (motors_set_pwm_ccr ccr s).ARR = s.ARR ∧
    (motors_set_pwm_ccr ccr s).CCR1 = (motors_set_pwm_ccr ccr s).CCR2 ∧
    (motors_set_pwm_ccr ccr s).CCR1 ≤ (motors_set_pwm_ccr ccr s).ARR ∧
    (s.ARR < ccr →
      (motors_set_pwm_ccr ccr s).CCR1 = s.ARR ∧ (motors_set_pwm_ccr ccr s).CCR2 = s.ARR) := by
  have hmin : (if ccr > s.ARR then s.ARR else ccr) = min ccr s.ARR := by
    split <;> omega
  have hset : motors_set_pwm_ccr ccr s
      = { s with CCR1 := min ccr s.ARR, CCR2 := min ccr s.ARR } := by
    simp only [motors_set_pwm_ccr, __HAL_TIM_GET_AUTORELOAD, __HAL_TIM_SET_COMPARE, hmin]
  rw [hset]
  refine ⟨rfl, rfl, rfl, rfl, Nat.min_le_right _ _, ?_⟩
  intro h
  exact ⟨Nat.min_eq_right (Nat.le_of_lt h), Nat.min_eq_right (Nat.le_of_lt h)⟩

/-- Witness of C8: a request of 70000 with the period register at 9999 leaves
9999 in both duty registers. -/
theorem C8_set_pwm_clamps_witness :
    (boot 9999).ARR < 70000 ∧
    (motors_set_pwm_ccr 70000 (boot 9999)).CCR1 = 9999 ∧
    (motors_set_pwm_ccr 70000 (boot 9999)).CCR2 = 9999 :=
  ⟨by decide, (C8_set_pwm_clamps 70000 (boot 9999)).2.2.2.2.2 (by decide)⟩

/-! ## Claims on the line assembler -/

/-- C9: in the console loop step, when the line buffer is empty and the received
byte is DEL 0x7F or BS 0x08, the state changes by the echo of that byte only:
`cmd_len` stays 0, the buffer is unchanged, nothing is dispatched and the erase
sequence is not written. -/
theorem C9_backspace_on_empty (env : Env) (s : State) (c : Nat) (hlen : s.cmd_len = 0)
    (hc : c = 127 ∨ c = 8) :
    shell_task_step env s c = { s with tx := s.tx ++ [[c]] } ∧
    (shell_task_step env s c).cmd_len = 0 ∧
    (shell_task_step env s c).cmd_line = s.cmd_line ∧
    (shell_task_step env s c).dispatched = s.dispatched ∧
    (shell_task_step env s c).motor = s.motor ∧
    bytes "\x08 \x08" ∉ [[c]] := by
  rw [step_backspace_empty env s c hc hlen]
  refine ⟨rfl, hlen, rfl, rfl, rfl, ?_⟩
  have : bytes "\x08 \x08" = [8, 32, 8] := by decide
  rw [this]
  simp

/-- Witness of C9: BS on the freshly booted console only echoes the byte. -/
theorem C9_backspace_on_empty_witness :
    shell_task_step env0 (boot 9999) 8 = { boot 9999 with tx := (boot 9999).tx ++ [[8]] } :=
  (C9_backspace_on_empty env0 (boot 9999) 8 (by decide) (by decide)).1

/-- C10: starting from an empty line buffer, for every sequence of more than 63
received bytes none of which is CR, LF, BS or DEL: while the bytes are collected
only their echoes are written, nothing is dispatched and the motor state is
untouched; at the following CR `handle_line` is called once, on the buffer that
holds exactly the first 63 bytes in order and the terminator. -/
theorem C10_long_line_truncated (env : Env) (s : State) (input : List Nat)
    (h0 : s.cmd_len = 0) (hbuf : s.cmd_line.length = CMD_LINE_MAX)
    (hn : CMD_LINE_MAX - 1 < input.length) (hin : ∀ c ∈ input, plainByte c) :
    (shell_task_run env s input).tx = s.tx ++ echoes input ∧
    (shell_task_run env s input).dispatched = s.dispatched ∧
    (shell_task_run env s input).motor = s.motor ∧
    (shell_task_run env s input).cmd_len = CMD_LINE_MAX - 1 ∧
    shell_task_run env s (input ++ [13]) =
      uart2_write_str (bytes ">> ")
        { handle_line env (input.take (CMD_LINE_MAX - 1) ++ [0])
            { s with tx := s.tx ++ echoes input ++ [[13], bytes "\r\n"],
                     cmd_line := input.take (CMD_LINE_MAX - 1) ++ [0],
                     cmd_len := CMD_LINE_MAX - 1,
                     dispatched := s.dispatched ++ [input.take (CMD_LINE_MAX - 1) ++ [0]] } with
          cmd_len := 0, cmd_line := List.replicate CMD_LINE_MAX 0 } ∧
    (shell_task_run env s (input ++ [13])).dispatched
      = s.dispatched ++ [input.take (CMD_LINE_MAX - 1) ++ [0]] ∧
    ((∀ c ∈ input, c ≠ 0) →
      cstr (input.take (CMD_LINE_MAX - 1) ++ [0]) = input.take (CMD_LINE_MAX - 1)) := by
  have hne : input ≠ [] := by
    intro h; rw [h] at hn; simp at hn
  obtain ⟨buf, _, _, hb3⟩ := run_plain env input s hin (by rw [h0]; exact Nat.zero_le _) hbuf
  have hmin : min (CMD_LINE_MAX - 1) (s.cmd_len + input.length) = CMD_LINE_MAX - 1 := by
    omega
  have hmin2 : min (CMD_LINE_MAX - 1) input.length = CMD_LINE_MAX - 1 := by
    omega
  obtain ⟨tail, htl, hrun⟩ := run_line env s input h0 hbuf hne hin
  have htail : tail = [] := by
    apply List.length_eq_zero.mp
    simp only [List.length_append, List.length_take, List.length_cons, hmin2] at htl
    unfold CMD_LINE_MAX at htl
    omega
  rw [htail, hmin2] at hrun
  refine ⟨by rw [hb3], by rw [hb3], by rw [hb3]; rfl, by rw [hb3]; exact hmin, hrun, ?_, ?_⟩
  · rw [hrun]
    obtain ⟨w, hw⟩ := uart2_write_str_frame (bytes ">> ")
      { handle_line env (input.take (CMD_LINE_MAX - 1) ++ [0])
          { s with tx := s.tx ++ echoes input ++ [[13], bytes "\r\n"],
                   cmd_line := input.take (CMD_LINE_MAX - 1) ++ [0],
                   cmd_len := CMD_LINE_MAX - 1,
                   dispatched := s.dispatched ++ [input.take (CMD_LINE_MAX - 1) ++ [0]] } with
        cmd_len := 0, cmd_line := List.replicate CMD_LINE_MAX 0 }
    rw [hw]
    exact (handle_line_frame env _ _).2.2.1
  · intro hnz
    rw [cstr_append_zero]
    exact cstr_eq_self (fun c hc => hnz c (List.mem_of_mem_take hc))

/-- Witness of C10: "on" followed by 68 spaces and CR dispatches the buffer
holding "on", 61 spaces and the terminator. -/
theorem C10_long_line_truncated_witness :
    (shell_task_run env0 (boot 9999) ((bytes "on" ++ List.replicate 68 32) ++ [13])).dispatched
      = (boot 9999).dispatched
        ++ [(bytes "on" ++ List.replicate 68 32).take (CMD_LINE_MAX - 1) ++ [0]] :=
  (C10_long_line_truncated env0 (boot 9999) (bytes "on" ++ List.replicate 68 32)
    (by decide) (by decide) (by decide) (by decide)).2.2.2.2.2.1

/-! ## Claims on the console loop, end to end -/

theorem step_terminator_empty (env : Env) (s : State) (c : Nat) (hc : c = 13 ∨ c = 10)
    (hlen : s.cmd_len = 0) :
    shell_task_step env s c = { s with tx := s.tx ++ [[c], bytes "\r\n", bytes ">> "] } := by
  have hw : ∀ (lit : List Nat) (t : State), lit.all (fun c => c != 0) = true → lit ≠ [] →
      lit.length < 2 ^ 16 → uart2_write_str lit t = { t with tx := t.tx ++ [lit] } :=
    fun lit t h1 h2 h3 => write_lit lit t h1 h2 h3
  simp only [shell_task_step, echo_eq, hc, if_true,
    hw (bytes "\r\n") _ (by decide) (by decide) (by decide),
    hw (bytes ">> ") _ (by decide) (by decide) (by decide), gt_iff_lt, hlen, Nat.lt_irrefl,
    if_false, List.append_assoc, List.singleton_append, List.cons_append, List.nil_append]

theorem normalised_mem_zero {l : List Nat} (h : 0 ∈ l) : 0 ∈ normalised l := by
  simp only [normalised, List.mem_map, List.mem_filter]
  exact ⟨0, ⟨h, by decide⟩, by decide⟩

theorem nonzero_of_normalised {l lit : List Nat} (h : normalised l = lit)
    (hlit : ∀ c ∈ lit, c ≠ 0) : ∀ c ∈ l, c ≠ 0 := by
  intro c hc h0
  subst h0
  exact hlit 0 (h ▸ normalised_mem_zero hc) rfl

/-- C11: in the console loop step, when the line buffer is empty and the
received byte is CR or LF, `handle_line` is not called, the motor state is
unchanged, and what is written after the echo of the byte is the line break
followed by the prompt and nothing else. -/
theorem C11_empty_line_prompt_only (env : Env) (s : State) (c : Nat)
    (hlen : s.cmd_len = 0) (hc : c = 13 ∨ c = 10) :
    shell_task_step env s c = { s with tx := s.tx ++ [[c], bytes "\r\n", bytes ">> "] } ∧
    (shell_task_step env s c).dispatched = s.dispatched ∧
    (shell_task_step env s c).motor = s.motor ∧
    (shell_task_step env s c).tx = s.tx ++ [[c]] ++ [bytes "\r\n", bytes ">> "] := by
  rw [step_terminator_empty env s c hc hlen]
  refine ⟨rfl, rfl, rfl, ?_⟩
  simp

/-- Witness of C11: a bare CR on the freshly booted console writes the echo,
the line break and the prompt. -/
theorem C11_empty_line_prompt_only_witness :
    shell_task_step env0 (boot 9999) 13
      = { boot 9999 with tx := (boot 9999).tx ++ [[13], bytes "\r\n", bytes ">> "] } :=
  (C11_empty_line_prompt_only env0 (boot 9999) 13 (by decide) (by decide)).1

/-- C12: end to end through the console loop, starting with an empty line
buffer (whatever the motor state, so in particular with the motor OFF): any
sequence of at most 63 bytes, none of them CR, LF, BS or DEL, that normalises to
ON, followed by CR, leaves the motor in the state `motors_on` produces (enabled
flag 1), and the output consists of the echoes, the line break, "OK ON" and
last the prompt. -/
theorem C12_on_end_to_end (env : Env) (s : State) (input : List Nat)
    (h0 : s.cmd_len = 0) (hbuf : s.cmd_line.length = CMD_LINE_MAX)
    (h63 : input.length ≤ CMD_LINE_MAX - 1) (hin : ∀ c ∈ input, plainByte c)
    (hnorm : normalised input = bytes "ON") :
    (shell_task_run env s (input ++ [13])).motor_enabled = 1 ∧
    (shell_task_run env s (input ++ [13])).motor = (motors_on s).motor ∧
    (shell_task_run env s (input ++ [13])).tx
      = s.tx ++ echoes input ++ [[13]] ++ [bytes "\r\n", bytes "OK ON\r\n", bytes ">> "] ∧
    (shell_task_run env s (input ++ [13])).cmd_len = 0 := by
  have hnz : ∀ c ∈ input, c ≠ 0 := nonzero_of_normalised hnorm (by decide)
  have hne : input ≠ [] := by
    intro h
    rw [h] at hnorm
    exact absurd hnorm (by decide)
  obtain ⟨tail, _, hrun⟩ := run_line env s input h0 hbuf hne hin
  rw [List.take_of_length_le h63] at hrun
  have hk : normalised (cstr (input ++ 0 :: tail)) = bytes "ON" := by
    rw [cstr_append_zero, cstr_eq_self hnz]; exact hnorm
  rw [hrun, handle_line_ON env _ _ hk, write_lit _ _ (by decide) (by decide) (by decide),
    motors_on_eq, motors_on_eq]
  refine ⟨rfl, rfl, ?_, rfl⟩
  simp

/-- Witness of C12: 'o', 'n', CR on the freshly booted console (motor OFF)
turns the motor on. -/
theorem C12_on_end_to_end_witness :
    (boot 9999).motor_enabled = 0 ∧
    (shell_task_run env0 (boot 9999) (bytes "on" ++ [13])).motor_enabled = 1 ∧
    (shell_task_run env0 (boot 9999) (bytes "on" ++ [13])).tx
      = (boot 9999).tx ++ echoes (bytes "on") ++ [[13]]
        ++ [bytes "\r\n", bytes "OK ON\r\n", bytes ">> "] :=
  ⟨by decide,
   (C12_on_end_to_end env0 (boot 9999) (bytes "on") (by decide) (by decide) (by decide)
      (by decide) (by decide)).1,
   (C12_on_end_to_end env0 (boot 9999) (bytes "on") (by decide) (by decide) (by decide)
      (by decide) (by decide)).2.2.1⟩

/-! ## Decimal conversion and the status line -/

theorem foldl_decimal_init (ds : List Nat) (a : Nat) :
    ds.foldl (fun acc d => 10 * acc + (d - 48)) a
      = a * 10 ^ ds.length + ds.foldl (fun acc d => 10 * acc + (d - 48)) 0 := by
  induction ds generalizing a with
  | nil => simp
  | cons d tl ih =>
    simp only [List.foldl_cons, List.length_cons]
    rw [ih (10 * a + (d - 48)), ih (10 * 0 + (d - 48))]
    ring

theorem decimal_value_cons (d : Nat) (ds : List Nat) :
    decimal_value (d :: ds) = (d - 48) * 10 ^ ds.length + decimal_value ds := by
  unfold decimal_value
  simp only [List.foldl_cons]
  rw [foldl_decimal_init]
  ring_nf

theorem utoa_digits_value (fuel n : Nat) (acc : List Nat) (h : n < 10 ^ fuel) :
    decimal_value (utoa_digits fuel n acc) = n * 10 ^ acc.length + decimal_value acc := by
  induction fuel generalizing n acc with
  | zero =>
    have hn : n = 0 := by simpa using h
    simp [utoa_digits, hn]
  | succ f ih =>
    unfold utoa_digits
    have hdm : 10 * (n / 10) + n % 10 = n := Nat.div_add_mod n 10
    split
    · rename_i hq
      rw [decimal_value_cons]
      have : n % 10 = n := by omega
      rw [Nat.add_sub_cancel_left, this]
    · have hlt : n / 10 < 10 ^ f := by
        rw [Nat.pow_succ] at h
        exact Nat.div_lt_of_lt_mul (by omega)
      rw [ih (n / 10) _ hlt, decimal_value_cons, Nat.add_sub_cancel_left, List.length_cons,
        Nat.pow_succ]
      calc n / 10 * (10 ^ acc.length * 10) + (n % 10 * 10 ^ acc.length + decimal_value acc)
          = (10 * (n / 10) + n % 10) * 10 ^ acc.length + decimal_value acc := by ring
        _ = n * 10 ^ acc.length + decimal_value acc := by rw [hdm]

theorem utoa_digits_range (fuel n : Nat) (acc : List Nat)
    (h : ∀ d ∈ acc, 48 ≤ d ∧ d ≤ 57) : ∀ d ∈ utoa_digits fuel n acc, 48 ≤ d ∧ d ≤ 57 := by
  induction fuel generalizing n acc with
  | zero => simpa [utoa_digits] using h
  | succ f ih =>
    have hcons : ∀ d ∈ (48 + n % 10) :: acc, 48 ≤ d ∧ d ≤ 57 := by
      intro d hd
      rcases List.mem_cons.mp hd with rfl | hd
      · omega
      · exact h d hd
    unfold utoa_digits
    split
    · exact hcons
    · exact ih _ _ hcons

theorem utoa_digits_ne_nil (fuel n : Nat) (acc : List Nat) (h : 0 < fuel) :
    utoa_digits fuel n acc ≠ [] := by
  induction fuel generalizing n acc with
  | zero => omega
  | succ f ih =>
    unfold utoa_digits
    split
    · simp
    · cases f with
      | zero => simp [utoa_digits]
      | succ g => exact ih _ _ (Nat.succ_pos g)

theorem utoa_digits_head (fuel n : Nat) (acc : List Nat) (hn : n ≠ 0) (h : n < 10 ^ fuel) :
    (utoa_digits fuel n acc).head? ≠ some 48 := by
  induction fuel generalizing n acc with
  | zero =>
    have : n = 0 := by simpa using h
    exact absurd this hn
  | succ f ih =>
    unfold utoa_digits
    split
    · rename_i hq
      simp only [List.head?_cons, ne_eq, Option.some.injEq]
      omega
    · rename_i hq
      have hlt : n / 10 < 10 ^ f := by
        rw [Nat.pow_succ] at h
        exact Nat.div_lt_of_lt_mul (by omega)
      exact ih (n / 10) _ hq hlt

theorem fmt_unsigned_isNumeral (n : Nat) : isNumeral (fmt_unsigned n) := by
  have hlt : n % 2 ^ 32 < 10 ^ 10 := by
    have : n % 2 ^ 32 < 2 ^ 32 := Nat.mod_lt _ (by decide)
    omega
  refine ⟨utoa_digits_ne_nil 10 _ [] (by decide), utoa_digits_range 10 _ [] (by simp), ?_⟩
  intro hhead
  by_cases h0 : n % 2 ^ 32 = 0
  · unfold fmt_unsigned
    rw [h0]
    rfl
  · exact absurd hhead (utoa_digits_head 10 _ [] h0 hlt)

theorem fmt_unsigned_value (n : Nat) : decimal_value (fmt_unsigned n) = n % 2 ^ 32 := by
  have hlt : n % 2 ^ 32 < 10 ^ 10 := by
    have : n % 2 ^ 32 < 2 ^ 32 := Nat.mod_lt _ (by decide)
    omega
  unfold fmt_unsigned
  rw [utoa_digits_value 10 _ [] hlt]
  simp [decimal_value]

theorem fmt_unsigned_no_break (n : Nat) : ∀ c ∈ fmt_unsigned n, c ≠ 13 ∧ c ≠ 10 := by
  intro c hc
  have := (fmt_unsigned_isNumeral n).2.1 c hc
  omega

/-- The status line with its five fields spelled out. -/
theorem status_format_fields (s : State) :
    status_format s =
      bytes "EN=" ++ fmt_unsigned s.motor_enabled ++ bytes " | FIXED_CCR=4000 | ARR="
        ++ fmt_unsigned s.ARR ++ bytes " CCR1=" ++ fmt_unsigned s.CCR1
        ++ bytes " CCR2=" ++ fmt_unsigned s.CCR2 ++ bytes "\r\n" := by
  have h4000 : fmt_unsigned MOTOR_PWM_CCR_FIXED = bytes "4000" := by decide
  have hlit : bytes " | FIXED_CCR=4000 | ARR="
      = bytes " | FIXED_CCR=" ++ (bytes "4000" ++ bytes " | ARR=") := by decide
  simp only [status_format, __HAL_TIM_GET_AUTORELOAD, __HAL_TIM_GET_COMPARE, h4000, hlit,
    List.append_assoc]

theorem status_format_length (s : State) : (status_format s).length ≤ 159 := by
  rw [status_format_fields]
  have l1 : (bytes "EN=").length = 3 := by decide
  have l2 : (bytes " | FIXED_CCR=4000 | ARR=").length = 24 := by decide
  have l3 : (bytes " CCR1=").length = 6 := by decide
  have l4 : (bytes " CCR2=").length = 6 := by decide
  have l5 : (bytes "\r\n").length = 2 := by decide
  have f1 := fmt_unsigned_length s.motor_enabled
  have f2 := fmt_unsigned_length s.ARR
  have f3 := fmt_unsigned_length s.CCR1
  have f4 := fmt_unsigned_length s.CCR2
  simp only [List.length_append, l1, l2, l3, l4, l5]
  omega

theorem status_not_truncated (s : State) : snprintf 160 (status_format s) = status_format s := by
  unfold snprintf
  exact List.take_of_length_le (status_format_length s)

/-- C13: for every state whose flag and registers hold values of their C types,
a line normalising to STATUS makes `handle_line` write exactly one text and
change nothing else: the text is "EN=" e " | FIXED_CCR=4000 | ARR=" arr " CCR1=" c1
" CCR2=" c2 CRLF, where e, arr, c1, c2 are the decimal numerals of the enabled
flag, the period register and the two duty registers; it has no line break
before its final CRLF and is not truncated by the 160-byte buffer. -/
theorem C13_status_line (env : Env) (buf : List Nat) (s : State)
    (h : normalised (cstr buf) = bytes "STATUS")
    (he : s.motor_enabled < 2 ^ 8) (ha : s.ARR < 2 ^ 32)
    (h1 : s.CCR1 < 2 ^ 32) (h2 : s.CCR2 < 2 ^ 32) :
    handle_line env buf s =
      { s with tx := s.tx ++
          [(bytes "EN=" ++ fmt_unsigned s.motor_enabled ++ bytes " | FIXED_CCR=4000 | ARR="
            ++ fmt_unsigned s.ARR ++ bytes " CCR1=" ++ fmt_unsigned s.CCR1
            ++ bytes " CCR2=" ++ fmt_unsigned s.CCR2) ++ bytes "\r\n"] } ∧
    (isNumeral (fmt_unsigned s.motor_enabled) ∧
      decimal_value (fmt_unsigned s.motor_enabled) = s.motor_enabled) ∧
    (isNumeral (fmt_unsigned s.ARR) ∧ decimal_value (fmt_unsigned s.ARR) = s.ARR) ∧
    (isNumeral (fmt_unsigned s.CCR1) ∧ decimal_value (fmt_unsigned s.CCR1) = s.CCR1) ∧
    (isNumeral (fmt_unsigned s.CCR2) ∧ decimal_value (fmt_unsigned s.CCR2) = s.CCR2) ∧
    (∀ c ∈ bytes "EN=" ++ fmt_unsigned s.motor_enabled ++ bytes " | FIXED_CCR=4000 | ARR="
            ++ fmt_unsigned s.ARR ++ bytes " CCR1=" ++ fmt_unsigned s.CCR1
            ++ bytes " CCR2=" ++ fmt_unsigned s.CCR2, c ≠ 13 ∧ c ≠ 10) ∧
    snprintf 160 (status_format s) = status_format s ∧
    (handle_line env buf s).motor = s.motor := by
  have hval : ∀ n : Nat, n < 2 ^ 32 → decimal_value (fmt_unsigned n) = n := by
    intro n hn
    rw [fmt_unsigned_value, Nat.mod_eq_of_lt hn]
  have hlit : ∀ lit : List Nat, lit.all (fun c => c != 13 && c != 10) = true →
      ∀ c ∈ lit, c ≠ 13 ∧ c ≠ 10 := by
    intro lit hl c hc
    have := List.all_eq_true.mp hl c hc
    simpa using this
  rw [handle_line_STATUS env buf s h, status_not_truncated, status_format_fields]
  refine ⟨by simp only [List.append_assoc], ⟨fmt_unsigned_isNumeral _, hval _ (by omega)⟩,
    ⟨fmt_unsigned_isNumeral _, hval _ ha⟩, ⟨fmt_unsigned_isNumeral _, hval _ h1⟩,
    ⟨fmt_unsigned_isNumeral _, hval _ h2⟩, ?_, rfl, rfl⟩
  intro c hc
  simp only [List.mem_append] at hc
  rcases hc with ((((((hc | hc) | hc) | hc) | hc) | hc) | hc) | hc
  · exact hlit _ (by decide) c hc
  · exact fmt_unsigned_no_break _ c hc
  · exact hlit _ (by decide) c hc
  · exact fmt_unsigned_no_break _ c hc
  · exact hlit _ (by decide) c hc
  · exact fmt_unsigned_no_break _ c hc
  · exact hlit _ (by decide) c hc
  · exact fmt_unsigned_no_break _ c hc

/-- Witness of C13: "status" on the freshly booted console with the period
register at 9999 writes "EN=0 | FIXED_CCR=4000 | ARR=9999 CCR1=0 CCR2=0". -/
theorem C13_status_line_witness :
    handle_line env0 (bytes "status") (boot 9999) =
      { boot 9999 with tx := (boot 9999).tx ++
          [(bytes "EN=" ++ fmt_unsigned (boot 9999).motor_enabled
            ++ bytes " | FIXED_CCR=4000 | ARR="
            ++ fmt_unsigned (boot 9999).ARR ++ bytes " CCR1=" ++ fmt_unsigned (boot 9999).CCR1
            ++ bytes " CCR2=" ++ fmt_unsigned (boot 9999).CCR2) ++ bytes "\r\n"] } ∧
    bytes "EN=" ++ fmt_unsigned (boot 9999).motor_enabled ++ bytes " | FIXED_CCR=4000 | ARR="
        ++ fmt_unsigned (boot 9999).ARR ++ bytes " CCR1=" ++ fmt_unsigned (boot 9999).CCR1
        ++ bytes " CCR2=" ++ fmt_unsigned (boot 9999).CCR2 ++ bytes "\r\n"
      = bytes "EN=0 | FIXED_CCR=4000 | ARR=9999 CCR1=0 CCR2=0\r\n" :=
  ⟨(C13_status_line env0 (bytes "status") (boot 9999) (by decide) (by decide) (by decide)
      (by decide) (by decide)).1, by decide⟩

/-! ## The line assembler follows the specification's replay -/

theorem step_backspace_nonempty (env : Env) (s : State) (c : Nat) (hc : c = 127 ∨ c = 8)
    (hlen : 0 < s.cmd_len) :
    shell_task_step env s c =
      { s with cmd_len := s.cmd_len - 1, tx := s.tx ++ [[c], bytes "\x08 \x08"] } := by
  have hnt : ¬ (c = 13 ∨ c = 10) := by omega
  have hw : ∀ t : State, uart2_write_str (bytes "\x08 \x08") t
      = { t with tx := t.tx ++ [bytes "\x08 \x08"] } :=
    fun t => write_lit _ t (by decide) (by decide) (by decide)
  simp only [shell_task_step, echo_eq, hnt, hc, if_false, if_true, hlen, gt_iff_lt, hw,
    List.append_assoc, List.singleton_append]

theorem dropLast_take_le (l : List Nat) (n : Nat) (h : n ≤ l.length) :
    (l.take n).dropLast = l.take (n - 1) := by
  rw [List.dropLast_eq_take, List.take_take, List.length_take, Nat.min_eq_left h]
  congr 1
  omega

/-- One step on a byte that is no terminator: the buffer keeps its 64 bytes,
`cmd_len` stays at most 63, the buffer prefix of length `cmd_len` is replayed by
`replay_byte`, and nothing is dispatched. -/
theorem step_edit (env : Env) (s : State) (c : Nat) (hc : editByte c)
    (hlen : s.cmd_len ≤ CMD_LINE_MAX - 1) (hbuf : s.cmd_line.length = CMD_LINE_MAX) :
    (shell_task_step env s c).cmd_line.length = CMD_LINE_MAX ∧
    (shell_task_step env s c).cmd_len ≤ CMD_LINE_MAX - 1 ∧
    (shell_task_step env s c).cmd_line.take (shell_task_step env s c).cmd_len
      = replay_byte (s.cmd_line.take s.cmd_len) c ∧
    (shell_task_step env s c).dispatched = s.dispatched ∧
    (shell_task_step env s c).motor = s.motor := by
  have hlt : s.cmd_len ≤ s.cmd_line.length := by
    rw [hbuf]; unfold CMD_LINE_MAX at hlen ⊢; omega
  have htl : (s.cmd_line.take s.cmd_len).length = s.cmd_len := by
    rw [List.length_take, Nat.min_eq_left hlt]
  have hnt : ¬ (c = 13 ∨ c = 10) := fun h => h.elim hc.1 hc.2
  by_cases hb : c = 127 ∨ c = 8
  · by_cases h0 : s.cmd_len = 0
    · rw [step_backspace_empty env s c hb h0]
      refine ⟨hbuf, hlen, ?_, rfl, rfl⟩
      simp [replay_byte, hnt, hb, h0]
    · rw [step_backspace_nonempty env s c hb (Nat.pos_of_ne_zero h0)]
      refine ⟨hbuf, Nat.le_trans (Nat.sub_le _ _) hlen, ?_, rfl, rfl⟩
      simp only [replay_byte, hnt, if_false, hb, if_true]
      exact (dropLast_take_le _ _ hlt).symm
  · have hp : plainByte c := ⟨hc.1, hc.2, fun h => hb (Or.inr h), fun h => hb (Or.inl h)⟩
    by_cases hroom : s.cmd_len < CMD_LINE_MAX - 1
    · rw [step_plain_room env s c hp hroom]
      have hin : s.cmd_len < s.cmd_line.length := by
        rw [hbuf]; unfold CMD_LINE_MAX at hroom ⊢; omega
      refine ⟨by simpa using hbuf, hroom, ?_, rfl, rfl⟩
      simp only [replay_byte, hnt, hb, if_false, htl, hroom, if_true]
      exact take_succ_set _ _ _ hin
    · rw [step_plain_full env s c hp hroom]
      refine ⟨hbuf, hlen, ?_, rfl, rfl⟩
      simp only [replay_byte, hnt, hb, if_false, htl, hroom]

theorem run_edit (env : Env) (input : List Nat) :
    ∀ s : State, (∀ c ∈ input, editByte c) → s.cmd_len ≤ CMD_LINE_MAX - 1 →
      s.cmd_line.length = CMD_LINE_MAX →
      (shell_task_run env s input).cmd_line.length = CMD_LINE_MAX ∧
      (shell_task_run env s input).cmd_len ≤ CMD_LINE_MAX - 1 ∧
      (shell_task_run env s input).cmd_line.take (shell_task_run env s input).cmd_len
        = input.foldl replay_byte (s.cmd_line.take s.cmd_len) ∧
      (shell_task_run env s input).dispatched = s.dispatched ∧
      (shell_task_run env s input).motor = s.motor := by
  induction input with
  | nil =>
    intro s _ hlen hbuf
    exact ⟨hbuf, hlen, rfl, rfl, rfl⟩
  | cons c rest ih =>
    intro s hin hlen hbuf
    have hc : editByte c := hin c (List.mem_cons_self _ _)
    have hrest : ∀ d ∈ rest, editByte d := fun d hd => hin d (List.mem_cons_of_mem _ hd)
    obtain ⟨a1, a2, a3, a4, a5⟩ := step_edit env s c hc hlen hbuf
    obtain ⟨b1, b2, b3, b4, b5⟩ := ih (shell_task_step env s c) hrest a2 a1
    have hrun : shell_task_run env s (c :: rest)
        = shell_task_run env (shell_task_step env s c) rest := rfl
    rw [hrun]
    refine ⟨b1, b2, ?_, b4.trans a4, b5.trans a5⟩
    rw [b3, a3]
    rfl

theorem step_terminator_frame (env : Env) (s : State) (c : Nat) (hc : c = 13 ∨ c = 10) :
    (shell_task_step env s c).cmd_len = 0 ∧
    (0 < s.cmd_len →
      (shell_task_step env s c).cmd_line = List.replicate CMD_LINE_MAX 0 ∧
      (shell_task_step env s c).dispatched = s.dispatched ++ [s.cmd_line.set s.cmd_len 0]) ∧
    (s.cmd_len = 0 →
      (shell_task_step env s c).cmd_line = s.cmd_line ∧
      (shell_task_step env s c).dispatched = s.dispatched) := by
  by_cases h0 : s.cmd_len = 0
  · rw [step_terminator_empty env s c hc h0]
    exact ⟨h0, fun h => absurd h0 (Nat.pos_iff_ne_zero.mp h), fun _ => ⟨rfl, rfl⟩⟩
  · have hpos : 0 < s.cmd_len := Nat.pos_of_ne_zero h0
    rw [step_terminator env s c hc hpos]
    obtain ⟨w, hw⟩ := uart2_write_str_frame (bytes ">> ")
      { handle_line env (s.cmd_line.set s.cmd_len 0)
          { s with tx := s.tx ++ [[c], bytes "\r\n"],
                   cmd_line := s.cmd_line.set s.cmd_len 0,
                   dispatched := s.dispatched ++ [s.cmd_line.set s.cmd_len 0] } with
        cmd_len := 0, cmd_line := List.replicate CMD_LINE_MAX 0 }
    rw [hw]
    exact ⟨rfl, fun _ => ⟨rfl, (handle_line_frame env _ _).2.2.1⟩, fun h => absurd h h0⟩

theorem run_snoc (env : Env) (s : State) (input : List Nat) (c : Nat) :
    shell_task_run env s (input ++ [c]) = shell_task_step env (shell_task_run env s input) c := by
  simp [shell_task_run, List.foldl_append]

/-- A whole edited line: bytes other than terminators collected from an empty
buffer, then a terminator.  The buffer prefix of length `cmd_len` is the replay
of the bytes; a non-empty replay is dispatched once, as the replay followed by
the terminator byte 0, and an empty one is not dispatched. -/
theorem run_edit_line (env : Env) (s : State) (input : List Nat) (t : Nat)
    (h0 : s.cmd_len = 0) (hbuf : s.cmd_line.length = CMD_LINE_MAX)
    (hin : ∀ c ∈ input, editByte c) (ht : t = 13 ∨ t = 10) :
    (shell_task_run env s input).cmd_line.take (shell_task_run env s input).cmd_len
      = replay input ∧
    (shell_task_run env s input).cmd_len = (replay input).length ∧
    (shell_task_run env s input).dispatched = s.dispatched ∧
    (replay input ≠ [] →
      ∃ tail : List Nat, (replay input ++ 0 :: tail).length = CMD_LINE_MAX ∧
        (shell_task_run env s input).cmd_line.set (shell_task_run env s input).cmd_len 0
          = replay input ++ 0 :: tail ∧
        (shell_task_run env s (input ++ [t])).dispatched
          = s.dispatched ++ [replay input ++ 0 :: tail]) ∧
    (replay input = [] →
      (shell_task_run env s (input ++ [t])).dispatched = s.dispatched) := by
  obtain ⟨e1, e2, e3, e4, _⟩ := run_edit env input s hin (by rw [h0]; exact Nat.zero_le _) hbuf
  rw [h0, List.take_zero] at e3
  have e3' : (shell_task_run env s input).cmd_line.take (shell_task_run env s input).cmd_len
      = replay input := e3
  have hle : (shell_task_run env s input).cmd_len ≤ (shell_task_run env s input).cmd_line.length := by
    rw [e1]; unfold CMD_LINE_MAX at e2 ⊢; omega
  have hlen : (shell_task_run env s input).cmd_len = (replay input).length := by
    rw [← e3', List.length_take, Nat.min_eq_left hle]
  obtain ⟨_, t1, t2⟩ := step_terminator_frame env (shell_task_run env s input) t ht
  refine ⟨e3', hlen, e4, ?_, ?_⟩
  · intro hne
    have hpos : 0 < (shell_task_run env s input).cmd_len := by
      rw [hlen]; exact List.length_pos.mpr hne
    have hlt : (shell_task_run env s input).cmd_len
        < (shell_task_run env s input).cmd_line.length := by
      rw [e1]; unfold CMD_LINE_MAX at e2 ⊢; omega
    have hL : (shell_task_run env s input).cmd_line.set (shell_task_run env s input).cmd_len 0
        = replay input
          ++ 0 :: (shell_task_run env s input).cmd_line.drop
              ((shell_task_run env s input).cmd_len + 1) := by
      rw [List.set_eq_take_cons_drop 0 hlt, e3']
    refine ⟨_, ?_, hL, ?_⟩
    · rw [← hL, List.length_set, e1]
    · rw [run_snoc, (t1 hpos).2, e4, hL]
  · intro hnil
    have hz : (shell_task_run env s input).cmd_len = 0 := by
      rw [hlen, hnil]; rfl
    rw [run_snoc, (t2 hz).2, e4]

theorem step_inv (env : Env) (s : State) (c : Nat)
    (hlen : s.cmd_len ≤ CMD_LINE_MAX - 1) (hbuf : s.cmd_line.length = CMD_LINE_MAX) :
    (shell_task_step env s c).cmd_len ≤ CMD_LINE_MAX - 1 ∧
    (shell_task_step env s c).cmd_line.length = CMD_LINE_MAX := by
  by_cases hc : c = 13 ∨ c = 10
  · obtain ⟨t0, t1, t2⟩ := step_terminator_frame env s c hc
    refine ⟨by rw [t0]; exact Nat.zero_le _, ?_⟩
    by_cases h0 : s.cmd_len = 0
    · rw [(t2 h0).1]; exact hbuf
    · rw [(t1 (Nat.pos_of_ne_zero h0)).1]; simp
  · have he : editByte c := ⟨fun h => hc (Or.inl h), fun h => hc (Or.inr h)⟩
    obtain ⟨a1, a2, _⟩ := step_edit env s c he hlen hbuf
    exact ⟨a2, a1⟩

theorem run_inv (env : Env) (input : List Nat) :
    ∀ s : State, s.cmd_len ≤ CMD_LINE_MAX - 1 → s.cmd_line.length = CMD_LINE_MAX →
      (shell_task_run env s input).cmd_len ≤ CMD_LINE_MAX - 1 ∧
      (shell_task_run env s input).cmd_line.length = CMD_LINE_MAX := by
  induction input with
  | nil => intro s hlen hbuf; exact ⟨hlen, hbuf⟩
  | cons c rest ih =>
    intro s hlen hbuf
    obtain ⟨a1, a2⟩ := step_inv env s c hlen hbuf
    exact ih (shell_task_step env s c) a1 a2

theorem handle_line_loop_length (line : List Nat) :
    (handle_line_loop line []).length ≤ CMD_LINE_MAX - 1 := by
  rw [handle_line_loop_eq line [] (by simp), List.length_take]
  exact Nat.min_le_left _ _

theorem step_any (env : Env) (s : State) (c : Nat)
    (hlen : s.cmd_len ≤ CMD_LINE_MAX - 1) (hbuf : s.cmd_line.length = CMD_LINE_MAX) :
    (shell_task_step env s c).cmd_line.take (shell_task_step env s c).cmd_len
      = replay_byte (s.cmd_line.take s.cmd_len) c := by
  by_cases hc : c = 13 ∨ c = 10
  · rw [(step_terminator_frame env s c hc).1]
    simp [replay_byte, hc]
  · have he : editByte c := ⟨fun h => hc (Or.inl h), fun h => hc (Or.inr h)⟩
    exact (step_edit env s c he hlen hbuf).2.2.1

/-- Over any sequence of received bytes the buffer prefix of length `cmd_len`
is the replay of the bytes. -/
theorem run_any (env : Env) (input : List Nat) :
    ∀ s : State, s.cmd_len ≤ CMD_LINE_MAX - 1 → s.cmd_line.length = CMD_LINE_MAX →
      (shell_task_run env s input).cmd_line.take (shell_task_run env s input).cmd_len
        = input.foldl replay_byte (s.cmd_line.take s.cmd_len) := by
  induction input with
  | nil => intro s _ _; rfl
  | cons c rest ih =>
    intro s hlen hbuf
    obtain ⟨a1, a2⟩ := step_inv env s c hlen hbuf
    have hrun : shell_task_run env s (c :: rest)
        = shell_task_run env (shell_task_step env s c) rest := rfl
    rw [hrun, ih (shell_task_step env s c) a1 a2, step_any env s c hlen hbuf]
    rfl

/-- A whole line after any sequence of received bytes: when the replay of the
bytes is non-empty at a terminator, `handle_line` is called on the replay
followed by the terminator byte 0, from a state whose output has grown by the
echo of the terminator and the line break; then the buffer is cleared and the
prompt is written. -/
theorem run_any_line (env : Env) (s : State) (input : List Nat) (t : Nat)
    (h0 : s.cmd_len = 0) (hbuf : s.cmd_line.length = CMD_LINE_MAX)
    (ht : t = 13 ∨ t = 10) (hne : replay input ≠ []) :
    ∃ tail : List Nat, (replay input ++ 0 :: tail).length = CMD_LINE_MAX ∧
      shell_task_run env s (input ++ [t]) =
        uart2_write_str (bytes ">> ")
          { handle_line env (replay input ++ 0 :: tail)
              { shell_task_run env s input with
                tx := (shell_task_run env s input).tx ++ [[t], bytes "\r\n"],
                cmd_line := replay input ++ 0 :: tail,
                dispatched := (shell_task_run env s input).dispatched
                  ++ [replay input ++ 0 :: tail] } with
            cmd_len := 0, cmd_line := List.replicate CMD_LINE_MAX 0 } ∧
      (shell_task_run env s (input ++ [t])).dispatched
        = (shell_task_run env s input).dispatched ++ [replay input ++ 0 :: tail] := by
  have hlen0 : s.cmd_len ≤ CMD_LINE_MAX - 1 := by rw [h0]; exact Nat.zero_le _
  obtain ⟨e2, e1⟩ := run_inv env input s hlen0 hbuf
  have e3 := run_any env input s hlen0 hbuf
  rw [h0, List.take_zero] at e3
  have e3' : (shell_task_run env s input).cmd_line.take (shell_task_run env s input).cmd_len
      = replay input := e3
  have hlt : (shell_task_run env s input).cmd_len
      < (shell_task_run env s input).cmd_line.length := by
    rw [e1]; unfold CMD_LINE_MAX at e2 ⊢; omega
  have hlen : (shell_task_run env s input).cmd_len = (replay input).length := by
    rw [← e3', List.length_take, Nat.min_eq_left (Nat.le_of_lt hlt)]
  have hpos : 0 < (shell_task_run env s input).cmd_len := by
    rw [hlen]; exact List.length_pos.mpr hne
  have hL : (shell_task_run env s input).cmd_line.set (shell_task_run env s input).cmd_len 0
      = replay input
        ++ 0 :: (shell_task_run env s input).cmd_line.drop
            ((shell_task_run env s input).cmd_len + 1) := by
    rw [List.set_eq_take_cons_drop 0 hlt, e3']
  refine ⟨(shell_task_run env s input).cmd_line.drop
    ((shell_task_run env s input).cmd_len + 1), ?_, ?_, ?_⟩
  · rw [← hL, List.length_set, e1]
  · rw [run_snoc, step_terminator env _ t ht hpos, hL]
  · rw [run_snoc, ((step_terminator_frame env _ t ht).2.1 hpos).2, hL]

/-! ## Claims on line editing, line boundaries and buffer bounds -/

/-- C18: in the console loop step, when the line buffer is non-empty and the
received byte is DEL 0x7F or BS 0x08, `cmd_len` decreases by one, the buffer
itself is untouched (so the remaining prefix is the old line without its last
character) and nothing is dispatched.  Consequently, for every byte sequence
received from an empty buffer, the line held in the buffer is the replay of the
bytes with backspace deleting the last retained character, and at a terminator
a non-empty replay is what `handle_line` is called on, followed by the
terminator byte 0. -/
theorem C18_backspace_replay (env : Env) (s : State) (input : List Nat) (t : Nat)
    (h0 : s.cmd_len = 0) (hbuf : s.cmd_line.length = CMD_LINE_MAX)
    (ht : t = 13 ∨ t = 10) :
    (∀ (u : State) (c : Nat), 0 < u.cmd_len → u.cmd_len ≤ u.cmd_line.length →
        (c = 127 ∨ c = 8) →
        shell_task_step env u c
          = { u with cmd_len := u.cmd_len - 1, tx := u.tx ++ [[c], bytes "\x08 \x08"] } ∧
        (shell_task_step env u c).cmd_line.take (shell_task_step env u c).cmd_len
          = (u.cmd_line.take u.cmd_len).dropLast ∧
        (shell_task_step env u c).dispatched = u.dispatched) ∧
    (shell_task_run env s input).cmd_line.take (shell_task_run env s input).cmd_len
      = replay input ∧
    ((∀ c ∈ input, editByte c) → (shell_task_run env s input).dispatched = s.dispatched) ∧
    (replay input ≠ [] →
      ∃ tail : List Nat, (replay input ++ 0 :: tail).length = CMD_LINE_MAX ∧
        shell_task_run env s (input ++ [t]) =
          uart2_write_str (bytes ">> ")
            { handle_line env (replay input ++ 0 :: tail)
                { shell_task_run env s input with
                  tx := (shell_task_run env s input).tx ++ [[t], bytes "\r\n"],
                  cmd_line := replay input ++ 0 :: tail,
                  dispatched := (shell_task_run env s input).dispatched
                    ++ [replay input ++ 0 :: tail] } with
              cmd_len := 0, cmd_line := List.replicate CMD_LINE_MAX 0 } ∧
        (shell_task_run env s (input ++ [t])).dispatched
          = (shell_task_run env s input).dispatched ++ [replay input ++ 0 :: tail] ∧
        cstr (replay input ++ 0 :: tail) = cstr (replay input)) := by
  have hlen0 : s.cmd_len ≤ CMD_LINE_MAX - 1 := by rw [h0]; exact Nat.zero_le _
  have e3 := run_any env input s hlen0 hbuf
  rw [h0, List.take_zero] at e3
  refine ⟨?_, e3, ?_, ?_⟩
  · intro u c hpos hle hc
    rw [step_backspace_nonempty env u c hc hpos]
    exact ⟨rfl, (dropLast_take_le _ _ hle).symm, rfl⟩
  · intro hin
    exact (run_edit env input s hin hlen0 hbuf).2.2.2.1
  · intro hne
    obtain ⟨tail, q1, q2, q3⟩ := run_any_line env s input t h0 hbuf ht hne
    exact ⟨tail, q1, q2, q3, cstr_append_zero _ _⟩

/-- Witness of C18: 'o', 'f', 'x', BS, 'f' replays to "off", and that is the line
held when the CR arrives. -/
theorem C18_backspace_replay_witness :
    replay [111, 102, 120, 8, 102] = bytes "off" ∧
    (shell_task_run env0 (boot 9999) [111, 102, 120, 8, 102]).cmd_line.take
        (shell_task_run env0 (boot 9999) [111, 102, 120, 8, 102]).cmd_len
      = replay [111, 102, 120, 8, 102] ∧
    (shell_task_run env0 (boot 9999) ([111, 102, 120, 8, 102] ++ [13])).dispatched
      = [bytes "off" ++ 0 :: List.replicate 60 0] :=
  ⟨by decide,
   (C18_backspace_replay env0 (boot 9999) [111, 102, 120, 8, 102] 13 (by decide) (by decide)
      (by decide)).2.1,
   by decide⟩

/-- C19: after the console loop processes a CR or LF byte, `cmd_len` is 0; if
the accumulated line was non-empty it was passed to `handle_line` exactly once
and every byte of `cmd_line` is 0 afterwards, and if it was empty nothing was
dispatched.  So a second terminator right after the first dispatches nothing,
and the next dispatched line is the replay of the bytes received after this
terminator only. -/
theorem C19_terminator_resets (env : Env) (s : State) (c : Nat)
    (hc : c = 13 ∨ c = 10) (hbuf : s.cmd_line.length = CMD_LINE_MAX) :
    (shell_task_step env s c).cmd_len = 0 ∧
    (0 < s.cmd_len →
      (shell_task_step env s c).cmd_line = List.replicate CMD_LINE_MAX 0 ∧
      (shell_task_step env s c).dispatched = s.dispatched ++ [s.cmd_line.set s.cmd_len 0]) ∧
    (s.cmd_len = 0 → (shell_task_step env s c).dispatched = s.dispatched) ∧
    (∀ c2 : Nat, c2 = 13 ∨ c2 = 10 →
      (shell_task_step env (shell_task_step env s c) c2).dispatched
        = (shell_task_step env s c).dispatched) ∧
    (∀ (input : List Nat) (t : Nat), (∀ b ∈ input, editByte b) → (t = 13 ∨ t = 10) →
      (replay input ≠ [] →
        ∃ tail : List Nat, (replay input ++ 0 :: tail).length = CMD_LINE_MAX ∧
          (shell_task_run env (shell_task_step env s c) (input ++ [t])).dispatched
            = (shell_task_step env s c).dispatched ++ [replay input ++ 0 :: tail]) ∧
      (replay input = [] →
        (shell_task_run env (shell_task_step env s c) (input ++ [t])).dispatched
          = (shell_task_step env s c).dispatched)) := by
  obtain ⟨t0, t1, t2⟩ := step_terminator_frame env s c hc
  have hbuf2 : (shell_task_step env s c).cmd_line.length = CMD_LINE_MAX := by
    by_cases h0 : s.cmd_len = 0
    · rw [(t2 h0).1]; exact hbuf
    · rw [(t1 (Nat.pos_of_ne_zero h0)).1]; simp
  refine ⟨t0, t1, fun h => (t2 h).2, ?_, ?_⟩
  · intro c2 hc2
    exact ((step_terminator_frame env (shell_task_step env s c) c2 hc2).2.2 t0).2
  · intro input t hin ht
    obtain ⟨_, _, _, r4, r5⟩ := run_edit_line env (shell_task_step env s c) input t t0 hbuf2 hin ht
    refine ⟨?_, r5⟩
    intro hne
    obtain ⟨tail, q1, _, q3⟩ := r4 hne
    exact ⟨tail, q1, q3⟩

/-- Witness of C19: "on", CR, LF dispatches the line once and leaves the buffer
cleared. -/
theorem C19_terminator_resets_witness :
    (shell_task_step env0 (shell_task_run env0 (boot 9999) (bytes "on")) 13).cmd_len = 0 ∧
    (shell_task_step env0 (shell_task_step env0 (shell_task_run env0 (boot 9999) (bytes "on")) 13)
        10).dispatched
      = (shell_task_step env0 (shell_task_run env0 (boot 9999) (bytes "on")) 13).dispatched ∧
    (shell_task_step env0 (shell_task_run env0 (boot 9999) (bytes "on")) 13).dispatched
      = [bytes "on" ++ List.replicate 62 0] :=
  ⟨(C19_terminator_resets env0 (shell_task_run env0 (boot 9999) (bytes "on")) 13 (by decide)
      (by decide)).1,
   (C19_terminator_resets env0 (shell_task_run env0 (boot 9999) (bytes "on")) 13 (by decide)
      (by decide)).2.2.2.1 10 (by decide),
   by decide⟩

/-- C20: starting from `cmd_len = 0` with the 64-byte buffer, after any finite
sequence of received bytes `cmd_len` is at most 63 and the buffer still has 64
bytes, so the index `cmd_len` of the next write (the append or the terminating
0) lies inside the buffer; and the normalisation loop of `handle_line` leaves
at most 63 characters in `cmd`, so its terminator is written at an index of at
most 63. -/
theorem C20_indices_in_bounds (env : Env) (s : State) (input : List Nat)
    (h0 : s.cmd_len = 0) (hbuf : s.cmd_line.length = CMD_LINE_MAX) :
    (shell_task_run env s input).cmd_len ≤ CMD_LINE_MAX - 1 ∧
    (shell_task_run env s input).cmd_line.length = CMD_LINE_MAX ∧
    (shell_task_run env s input).cmd_len < (shell_task_run env s input).cmd_line.length ∧
    (∀ line : List Nat, (handle_line_loop line []).length ≤ CMD_LINE_MAX - 1) := by
  obtain ⟨a1, a2⟩ := run_inv env input s (by rw [h0]; exact Nat.zero_le _) hbuf
  refine ⟨a1, a2, ?_, handle_line_loop_length⟩
  rw [a2]
  unfold CMD_LINE_MAX at a1 ⊢
  omega

/-- Witness of C20: after 70 letters, a backspace and some more bytes the length
is still inside the buffer. -/
theorem C20_indices_in_bounds_witness :
    (shell_task_run env0 (boot 9999) (List.replicate 70 97 ++ [8, 98, 99, 100])).cmd_len
      ≤ CMD_LINE_MAX - 1 :=
  (C20_indices_in_bounds env0 (boot 9999) (List.replicate 70 97 ++ [8, 98, 99, 100])
    (by decide) (by decide)).1

/-! ## Claim on the receive byte channel -/

theorem rx_step_inv (s : RxState) (e : RxEvent) (h : RxInv s) : RxInv (rx_step s e) := by
  obtain ⟨harm, q, hq, hcap, hlen, hfifo⟩ := h
  cases e with
  | rx b =>
    by_cases hroom : q.items.length < q.uxLength
    · refine ⟨?_, { q with items := q.items ++ [b] }, ?_, hcap, ?_, ?_⟩
      · simp [rx_step, harm, HAL_UART_RxCpltCallback]
      · simp [rx_step, harm, HAL_UART_RxCpltCallback, hq, xQueueSendFromISR, hroom]
      · simp only [List.length_append, List.length_singleton]
        rw [hcap] at hroom
        omega
      · simp [rx_step, harm, HAL_UART_RxCpltCallback, hq, xQueueSendFromISR, hroom,
          ← hfifo]
    · refine ⟨?_, q, ?_, hcap, hlen, ?_⟩
      · simp [rx_step, harm, HAL_UART_RxCpltCallback]
      · simp [rx_step, harm, HAL_UART_RxCpltCallback, hq, xQueueSendFromISR, hroom]
      · simp [rx_step, harm, HAL_UART_RxCpltCallback, hq, xQueueSendFromISR, hroom,
          ← hfifo]
  | recv =>
    cases hitems : q.items with
    | nil =>
      have : rx_step s RxEvent.recv = s := by
        simp [rx_step, shell_task_receive, hq, xQueueReceive, hitems]
      rw [this]
      exact ⟨harm, q, hq, hcap, hlen, hfifo⟩
    | cons b rest =>
      have hstep : rx_step s RxEvent.recv
          = { s with q_uart2_rx := some { q with items := rest },
                     delivered := s.delivered ++ [b] } := by
        simp [rx_step, shell_task_receive, hq, xQueueReceive, hitems]
      rw [hstep]
      refine ⟨harm, { q with items := rest }, rfl, hcap, ?_, ?_⟩
      · rw [hitems] at hlen
        simp only [List.length_cons] at hlen
        show rest.length ≤ RX_QUEUE_LEN
        omega
      · rw [hitems] at hfifo
        simpa using hfifo

theorem rx_run_inv (events : List RxEvent) :
    ∀ s : RxState, RxInv s → RxInv (rx_run s events) := by
  induction events with
  | nil => intro s h; exact h
  | cons e rest ih => intro s h; exact ih (rx_step s e) (rx_step_inv s e h)

theorem rx_boot_inv : RxInv rx_boot :=
  ⟨rfl, xQueueCreate RX_QUEUE_LEN, rfl, rfl, by decide, rfl⟩

theorem rx_step_accepted (s : RxState) (e : RxEvent) :
    ∃ extra : List Nat, (rx_step s e).accepted = s.accepted ++ extra ∧
      List.Sublist extra (rx_bytes [e]) := by
  cases e with
  | rx b =>
    by_cases harm : s.rx_armed = true
    · cases hq : s.q_uart2_rx with
      | none =>
        refine ⟨[], ?_, by simp⟩
        simp [rx_step, harm, HAL_UART_RxCpltCallback, hq]
      | some q =>
        by_cases hroom : q.items.length < q.uxLength
        · refine ⟨[b], ?_, by simp [rx_bytes]⟩
          simp [rx_step, harm, HAL_UART_RxCpltCallback, hq, xQueueSendFromISR, hroom]
        · refine ⟨[], ?_, by simp⟩
          simp [rx_step, harm, HAL_UART_RxCpltCallback, hq, xQueueSendFromISR, hroom]
    · refine ⟨[], ?_, by simp⟩
      simp [rx_step, harm]
  | recv =>
    refine ⟨[], ?_, by simp⟩
    simp only [rx_step, shell_task_receive, List.append_nil]
    cases hq : s.q_uart2_rx with
    | none => rfl
    | some q =>
      cases hr : xQueueReceive q with
      | none => simp only [hr]
      | some p => simp only [hr]

theorem rx_run_accepted (events : List RxEvent) :
    ∀ s : RxState, ∃ extra : List Nat, (rx_run s events).accepted = s.accepted ++ extra ∧
      List.Sublist extra (rx_bytes events) := by
  induction events with
  | nil => intro s; exact ⟨[], by simp [rx_run], by simp⟩
  | cons e rest ih =>
    intro s
    obtain ⟨x1, h1, s1⟩ := rx_step_accepted s e
    obtain ⟨x2, h2, s2⟩ := ih (rx_step s e)
    refine ⟨x1 ++ x2, ?_, ?_⟩
    · show (rx_run (rx_step s e) rest).accepted = s.accepted ++ (x1 ++ x2)
      rw [h2, h1, List.append_assoc]
    · have : rx_bytes (e :: rest) = rx_bytes [e] ++ rx_bytes rest := by
        simp [rx_bytes, List.filterMap_cons]
        cases e <;> simp
      rw [this]
      exact List.Sublist.append s1 s2

/-- C14: after any sequence of completed receptions and console receives from
the state `main` sets up, the queue holds at most 128 bytes; the bytes delivered
to the console followed by the bytes still queued are exactly the accepted
bytes, which are a subsequence, in order, of the received ones (strict FIFO); a
send onto a full queue returns without storing and leaves the queue as it was;
a receive removes the oldest byte and a send appends behind the newest. -/
theorem C14_byte_channel (events : List RxEvent) :
    (∃ q : Queue, (rx_run rx_boot events).q_uart2_rx = some q ∧
      q.uxLength = RX_QUEUE_LEN ∧ q.items.length ≤ RX_QUEUE_LEN ∧
      (rx_run rx_boot events).delivered ++ q.items = (rx_run rx_boot events).accepted) ∧
    List.Sublist (rx_run rx_boot events).accepted (rx_bytes events) ∧
    (∀ (s : RxState) (q : Queue), s.q_uart2_rx = some q → q.items.length = q.uxLength →
      (HAL_UART_RxCpltCallback true s).q_uart2_rx = some q ∧
      (HAL_UART_RxCpltCallback true s).accepted = s.accepted ∧
      (HAL_UART_RxCpltCallback true s).delivered = s.delivered) ∧
    (∀ (q : Queue) (b : Nat) (rest : List Nat), q.items = b :: rest →
      xQueueReceive q = some (b, { q with items := rest })) ∧
    (∀ (q : Queue) (b : Nat), q.items.length < q.uxLength →
      (xQueueSendFromISR q b).1.items = q.items ++ [b]) := by
  refine ⟨(rx_run_inv events rx_boot rx_boot_inv).2, ?_, ?_, ?_, ?_⟩
  · obtain ⟨extra, h1, h2⟩ := rx_run_accepted events rx_boot
    rw [h1]
    simpa [rx_boot] using h2
  · intro s q hq hfull
    have hroom : ¬ q.items.length < q.uxLength := by omega
    simp [HAL_UART_RxCpltCallback, hq, xQueueSendFromISR, hroom]
  · intro q b rest hitems
    simp [xQueueReceive, hitems]
  · intro q b hroom
    simp [xQueueSendFromISR, hroom]

set_option maxRecDepth 100000 in
/-- Witness of C14: 130 receptions of the bytes 0..129 followed by two receives
leave the bytes 2..127 queued, the bytes 0 and 1 delivered, and the last two
received bytes dropped. -/
theorem C14_byte_channel_witness :
    List.Sublist
      (rx_run rx_boot ((List.range 130).map RxEvent.rx ++ [RxEvent.recv, RxEvent.recv])).accepted
      (rx_bytes ((List.range 130).map RxEvent.rx ++ [RxEvent.recv, RxEvent.recv])) ∧
    (rx_run rx_boot ((List.range 130).map RxEvent.rx ++ [RxEvent.recv, RxEvent.recv])).delivered
      = [0, 1] ∧
    (rx_run rx_boot ((List.range 130).map RxEvent.rx ++ [RxEvent.recv, RxEvent.recv])).accepted
      = List.range 128 :=
  ⟨(C14_byte_channel ((List.range 130).map RxEvent.rx ++ [RxEvent.recv, RxEvent.recv])).2.1,
   by decide, by decide⟩

/-! ## Claims on the transmit gate -/

/-- C15: one call of `uart2_write_blocking_it` calls `HAL_UART_Transmit_IT` at
most once, and only if the data pointer is non-null, the length is non-zero and
the lock was taken; when the input is null or zero-length, or the lock is not
taken, the call makes no transmit call, takes the completion signal neither at
line 96 nor at line 100, and does not take the lock, so it returns without
holding it. -/
theorem C15_transmit_only_under_lock (data : Option (List Nat)) (len : Nat)
    (mtx sem : Bool) (a : TxGate.Answers) :
    ((TxGate.uart2_write_blocking_it data len mtx sem a).countP TxGate.Call.isTransmit ≤ 1) ∧
    (∀ (d : List Nat) (ok : Bool),
      TxGate.Call.transmit d ok ∈ TxGate.uart2_write_blocking_it data len mtx sem a →
      data ≠ none ∧ len ≠ 0 ∧ a.mtx_taken = true ∧
      TxGate.Call.take_mtx true ∈ TxGate.uart2_write_blocking_it data len mtx sem a) ∧
    (data = none ∨ len = 0 ∨ a.mtx_taken = false →
      (∀ c ∈ TxGate.uart2_write_blocking_it data len mtx sem a,
        c.isTransmit = false ∧ c.takesSignal = false ∧ c ≠ TxGate.Call.take_mtx true ∧
        c ≠ TxGate.Call.give_mtx)) := by
  cases data with
  | none => simp [TxGate.uart2_write_blocking_it]
  | some d =>
    by_cases hlen : len = 0
    · simp [TxGate.uart2_write_blocking_it, hlen]
    · cases mtx <;> cases sem <;> cases hm : a.mtx_taken <;> cases hh : a.hal_ok <;>
        simp [TxGate.uart2_write_blocking_it, hlen, hm, hh, TxGate.Call.isTransmit,
          TxGate.Call.takesSignal, List.countP_cons]

/-- Witness of C15: with the lock not taken the only call made is the failed
take of the lock. -/
theorem C15_transmit_only_under_lock_witness :
    ∀ c ∈ TxGate.uart2_write_blocking_it (some [111, 110]) 2 true true
        { mtx_taken := false, sem_stale := true, hal_ok := true, sem_signalled := true },
      c.isTransmit = false ∧ c.takesSignal = false ∧ c ≠ TxGate.Call.take_mtx true ∧
      c ≠ TxGate.Call.give_mtx :=
  (C15_transmit_only_under_lock (some [111, 110]) 2 true true
    { mtx_taken := false, sem_stale := true, hal_ok := true, sem_signalled := true }).2.2
    (Or.inr (Or.inr rfl))

/-- C16: in every call of `uart2_write_blocking_it` that takes the lock, the
calls made are, in this order: the take of the lock, the non-blocking take of
the completion signal, the call of `HAL_UART_Transmit_IT`, then the wait on the
completion signal when the transmit start succeeded, and last the give of the
lock.  So the drain precedes the start of the transmission, and the lock is
given exactly once, as the last call, whether the start succeeded or failed and
whether the wait succeeded or timed out. -/
theorem C16_drain_then_release (data : Option (List Nat)) (len : Nat)
    (mtx sem : Bool) (a : TxGate.Answers)
    (h : TxGate.Call.take_mtx true ∈ TxGate.uart2_write_blocking_it data len mtx sem a) :
    ∃ (d : List Nat) (post : List TxGate.Call),
      data = some d ∧
      TxGate.uart2_write_blocking_it data len mtx sem a
        = [TxGate.Call.take_mtx true, TxGate.Call.drain_sem a.sem_stale,
           TxGate.Call.transmit (d.take len) a.hal_ok] ++ post ∧
      (post = [TxGate.Call.give_mtx] ∨
        (a.hal_ok = true ∧
          post = [TxGate.Call.wait_sem a.sem_signalled, TxGate.Call.give_mtx])) ∧
      (TxGate.uart2_write_blocking_it data len mtx sem a).getLast? = some TxGate.Call.give_mtx ∧
      (TxGate.uart2_write_blocking_it data len mtx sem a).count (TxGate.Call.take_mtx true) = 1 ∧
      (TxGate.uart2_write_blocking_it data len mtx sem a).count TxGate.Call.give_mtx = 1 := by
  cases data with
  | none => simp [TxGate.uart2_write_blocking_it] at h
  | some d =>
    by_cases hlen : len = 0
    · simp [TxGate.uart2_write_blocking_it, hlen] at h
    · cases mtx <;> cases sem <;> cases hm : a.mtx_taken <;> cases hh : a.hal_ok <;>
        simp [TxGate.uart2_write_blocking_it, hlen, hm, hh] at h ⊢

/-- Witness of C16: a call whose transmit start succeeds and whose wait times
out still ends with the give of the lock. -/
theorem C16_drain_then_release_witness :
    (TxGate.uart2_write_blocking_it (some [111, 110]) 2 true true
        { mtx_taken := true, sem_stale := false, hal_ok := true, sem_signalled := false }).getLast?
      = some TxGate.Call.give_mtx :=
  match C16_drain_then_release (some [111, 110]) 2 true true
    { mtx_taken := true, sem_stale := false, hal_ok := true, sem_signalled := false }
    (by decide) with
  | ⟨_, _, _, _, _, hlast, _, _⟩ => hlast

/-! ## Interleavings at the transmit gate -/

open TxGate in
theorem mtx_take_pc (g : Gate) (i : Nat) : (mtx_take g i).1.pc = g.pc := by
  unfold mtx_take
  split <;> rfl

open TxGate in
theorem sem_take_pc (g : Gate) : (sem_take g).1.pc = g.pc := by
  unfold sem_take
  split <;> rfl

open TxGate in
theorem sem_take_mtx (g : Gate) : (sem_take g).1.mtx = g.mtx := by
  unfold sem_take
  split <;> rfl

open TxGate in
theorem enter_call_mtx (g : Gate) (i : Nat) (data : Option (List Nat)) (len : Nat) :
    (enter_call g i data len).mtx = g.mtx := by
  unfold enter_call
  cases data with
  | none => rfl
  | some d =>
    simp only
    split
    · rfl
    · split <;> rfl

open TxGate in
theorem enter_call_pc (g : Gate) (i : Nat) (data : Option (List Nat)) (len : Nat) (k : Nat) :
    (enter_call g i data len).pc k = g.pc k ∨
    (k = i ∧ ∃ d, (enter_call g i data len).pc k = Pc.line93 d) := by
  unfold enter_call
  cases data with
  | none => exact Or.inl rfl
  | some d =>
    simp only
    split
    · exact Or.inl rfl
    · split
      · exact Or.inl rfl
      · by_cases hk : k = i
        · exact Or.inr ⟨hk, d.take len, by simp [Gate.goto, hk]⟩
        · exact Or.inl (by simp [Gate.goto, hk])

open TxGate in
/-- A step moves only the task that the event names. -/
theorem gstep_pc_other (g g2 : Gate) (e : Event) (i : Nat) (h : gstep g e = some g2)
    (h1 : ∀ data len, e ≠ Event.enter i data len) (h2 : ∀ c, e ≠ Event.call i c) :
    g2.pc i = g.pc i := by
  cases e with
  | tx_complete u =>
    simp only [gstep, Option.some.injEq] at h
    subst h
    cases u <;> rfl
  | enter k data len =>
    have hk : i ≠ k := fun hik => h1 data len (by rw [hik])
    simp only [gstep] at h
    split at h
    · simp only [Option.some.injEq] at h
      subst h
      rcases enter_call_pc g k data len i with hp | ⟨hik, _⟩
      · exact hp
      · exact absurd hik hk
    · exact absurd h (by simp)
  | call k c =>
    have hk : i ≠ k := fun hik => h2 c (by rw [hik])
    simp only [gstep] at h
    split at h
    · split at h
      · simp only [Option.some.injEq] at h
        subst h
        simp [Gate.goto, hk, mtx_take_pc]
      · exact absurd h (by simp)
    · split at h
      · simp only [Option.some.injEq] at h
        subst h
        simp [Gate.goto, hk, sem_take_pc]
      · exact absurd h (by simp)
    · split at h
      · simp only [Option.some.injEq] at h
        subst h
        simp [Gate.goto, hk]
      · exact absurd h (by simp)
    · split at h
      · simp only [Option.some.injEq] at h
        subst h
        simp [Gate.goto, hk, sem_take_pc]
      · exact absurd h (by simp)
    · simp only [Option.some.injEq] at h
      subst h
      simp [Gate.goto, hk, mtx_give]
    · exact absurd h (by simp)

open TxGate in
theorem gstep_enter_idle (g g2 : Gate) (i : Nat) (data : Option (List Nat)) (len : Nat)
    (h : gstep g (Event.enter i data len) = some g2) :
    g.pc i = Pc.idle ∧ g2 = enter_call g i data len := by
  simp only [gstep] at h
  split at h
  · rename_i hpc
    simp only [Option.some.injEq] at h
    exact ⟨hpc, h.symm⟩
  · exact absurd h (by simp)

open TxGate in
/-- After the transmission of task `i` has started, the next step of `i` is
the return of its wait on the completion signal. -/
theorem at100_step (g g2 : Gate) (e : Event) (i : Nat) (hpc : g.pc i = Pc.line100)
    (h : gstep g e = some g2) :
    g2.pc i = Pc.line100 ∨ (∃ ok, e = Event.call i (Call.wait_sem ok) ∧ g2.pc i = Pc.line103) := by
  by_cases h1 : ∃ data len, e = Event.enter i data len
  · obtain ⟨data, len, rfl⟩ := h1
    have := (gstep_enter_idle g g2 i data len h).1
    rw [hpc] at this
    exact absurd this (by simp)
  · by_cases h2 : ∃ c, e = Event.call i c
    · obtain ⟨c, rfl⟩ := h2
      simp only [gstep, hpc] at h
      cases c with
      | wait_sem ok =>
        simp only at h
        split at h
        · simp only [Option.some.injEq] at h
          subst h
          exact Or.inr ⟨ok, rfl, by simp [Gate.goto]⟩
        · exact absurd h (by simp)
      | take_mtx ok => exact absurd h (by simp)
      | drain_sem had => exact absurd h (by simp)
      | transmit d ok => exact absurd h (by simp)
      | give_mtx => exact absurd h (by simp)
    · left
      rw [gstep_pc_other g g2 e i h (fun data len he => h1 ⟨data, len, he⟩)
        (fun c he => h2 ⟨c, he⟩), hpc]

open TxGate in
/-- After its wait has returned, the next step of task `i` is the give of the
lock. -/
theorem at103_step (g g2 : Gate) (e : Event) (i : Nat) (hpc : g.pc i = Pc.line103)
    (h : gstep g e = some g2) :
    g2.pc i = Pc.line103 ∨ e = Event.call i Call.give_mtx := by
  by_cases h1 : ∃ data len, e = Event.enter i data len
  · obtain ⟨data, len, rfl⟩ := h1
    have := (gstep_enter_idle g g2 i data len h).1
    rw [hpc] at this
    exact absurd this (by simp)
  · by_cases h2 : ∃ c, e = Event.call i c
    · obtain ⟨c, rfl⟩ := h2
      simp only [gstep, hpc] at h
      cases c with
      | give_mtx => exact Or.inr rfl
      | take_mtx ok => exact absurd h (by simp)
      | drain_sem had => exact absurd h (by simp)
      | transmit d ok => exact absurd h (by simp)
      | wait_sem ok => exact absurd h (by simp)
    · left
      rw [gstep_pc_other g g2 e i h (fun data len he => h1 ⟨data, len, he⟩)
        (fun c he => h2 ⟨c, he⟩), hpc]

open TxGate in
theorem gstep_transmit (g g2 : Gate) (j : Nat) (d : List Nat) (ok : Bool)
    (h : gstep g (Event.call j (Call.transmit d ok)) = some g2) :
    g.pc j = Pc.line98 d ∧ g2 = g.goto j (if ok then Pc.line100 else Pc.line103) := by
  cases hp : g.pc j <;> simp only [gstep, hp] at h <;> try contradiction
  rename_i d0
  split at h
  · rename_i hd
    simp only [Option.some.injEq] at h
    exact ⟨by rw [hd], h.symm⟩
  · exact absurd h (by simp)

open TxGate in
theorem goto_locked (g g2 : Gate) (i : Nat) (p : Pc) (hinv : LockInv g)
    (hpc : g2.pc = (g.goto i p).pc) (hmtx : g2.mtx = g.mtx)
    (hi : p.locked = true → g.mtx = some i) : LockInv g2 := by
  intro k hk
  rw [hpc] at hk
  rw [hmtx]
  by_cases hki : k = i
  · subst hki
    simp only [Gate.goto, if_true] at hk
    exact hi hk
  · simp only [Gate.goto, hki, if_false] at hk
    exact hinv k hk

open TxGate in
/-- Every step keeps the lock invariant. -/
theorem lockinv_step (g g2 : Gate) (e : Event) (hinv : LockInv g) (h : gstep g e = some g2) :
    LockInv g2 := by
  cases e with
  | tx_complete u =>
    simp only [gstep, Option.some.injEq] at h
    subst h
    cases u
    · exact hinv
    · exact hinv
  | enter k data len =>
    obtain ⟨hidle, rfl⟩ := gstep_enter_idle g g2 k data len h
    intro k2 hk2
    rw [enter_call_mtx]
    rcases enter_call_pc g k data len k2 with hp | ⟨_, d, hp⟩
    · rw [hp] at hk2
      exact hinv k2 hk2
    · rw [hp] at hk2
      exact absurd hk2 (by simp [Pc.locked])
  | call k c =>
    cases hp : g.pc k <;> cases c <;> simp only [gstep, hp] at h <;> try contradiction
    · rename_i d ok
      split at h
      · rename_i hok
        simp only [Option.some.injEq] at h
        subst h
        by_cases hfree : g.mtx = none
        · have hres : mtx_take g k = ({ g with mtx := some k }, true) := by
            simp [mtx_take, hfree]
          rw [hres] at hok ⊢
          simp only at hok
          subst hok
          intro k2 hk2
          by_cases hk : k2 = k
          · subst hk; rfl
          · simp only [Gate.goto, hk, if_false] at hk2
            have := hinv k2 hk2
            rw [hfree] at this
            exact absurd this (by simp)
        · have hres : mtx_take g k = (g, false) := by
            simp [mtx_take, hfree]
          rw [hres] at hok ⊢
          simp only at hok
          subst hok
          exact goto_locked g _ k Pc.idle hinv rfl rfl (by simp [Pc.locked])
      · exact absurd h (by simp)
    · rename_i d had
      have hk : g.mtx = some k := hinv k (by rw [hp]; rfl)
      split at h
      · simp only [Option.some.injEq] at h
        subst h
        exact goto_locked g _ k (Pc.line98 d) hinv
          (by simp [Gate.goto, sem_take_pc]) (by simp [Gate.goto, sem_take_mtx]) (fun _ => hk)
      · exact absurd h (by simp)
    · rename_i d d2 ok
      have hk : g.mtx = some k := hinv k (by rw [hp]; rfl)
      split at h
      · simp only [Option.some.injEq] at h
        subst h
        exact goto_locked g _ k _ hinv rfl rfl (fun _ => hk)
      · exact absurd h (by simp)
    · rename_i ok
      have hk : g.mtx = some k := hinv k (by rw [hp]; rfl)
      split at h
      · simp only [Option.some.injEq] at h
        subst h
        exact goto_locked g _ k Pc.line103 hinv
          (by simp [Gate.goto, sem_take_pc]) (by simp [Gate.goto, sem_take_mtx]) (fun _ => hk)
      · exact absurd h (by simp)
    · have hk : g.mtx = some k := hinv k (by rw [hp]; rfl)
      simp only [Option.some.injEq] at h
      subst h
      intro k2 hk2
      by_cases hkk : k2 = k
      · subst hkk
        simp [Gate.goto, Pc.locked] at hk2
      · simp only [Gate.goto, hkk, if_false, mtx_give] at hk2
        have := hinv k2 hk2
        rw [hk] at this
        simp only [Option.some.injEq] at this
        exact absurd this.symm hkk

open TxGate in
theorem grun_cons (g : Gate) (e : Event) (rest : List Event) (g3 : Gate)
    (h : grun g (e :: rest) = some g3) :
    ∃ g2, gstep g e = some g2 ∧ grun g2 rest = some g3 := by
  simp only [grun] at h
  split at h
  · exact absurd h (by simp)
  · rename_i g2 hg2
    exact ⟨g2, hg2, h⟩

open TxGate in
theorem grun_append (a b : List Event) :
    ∀ (g g3 : Gate), grun g (a ++ b) = some g3 →
      ∃ g2, grun g a = some g2 ∧ grun g2 b = some g3 := by
  induction a with
  | nil => intro g g3 h; exact ⟨g, rfl, h⟩
  | cons e rest ih =>
    intro g g3 h
    obtain ⟨g1, h1, h2⟩ := grun_cons g e (rest ++ b) g3 h
    obtain ⟨g2, h3, h4⟩ := ih g1 g3 h2
    refine ⟨g2, ?_, h4⟩
    simp only [grun, h1]
    exact h3

open TxGate in
theorem lockinv_run (tr : List Event) :
    ∀ (g g2 : Gate), LockInv g → grun g tr = some g2 → LockInv g2 := by
  induction tr with
  | nil =>
    intro g g2 hinv h
    simp only [grun, Option.some.injEq] at h
    subst h
    exact hinv
  | cons e rest ih =>
    intro g g2 hinv h
    obtain ⟨g1, h1, h2⟩ := grun_cons g e rest g2 h
    exact ih g1 g2 (lockinv_step g g1 e hinv h1) h2

open TxGate in
theorem lockinv_init : LockInv ginit := by
  intro k hk
  simp [ginit, Pc.locked] at hk

open TxGate in
/-- From line 103 on: either task `i` is still at line 103, or it has given the
lock. -/
theorem seg_release (mid : List Event) (i : Nat) :
    ∀ (g g2 : Gate), g.pc i = Pc.line103 → grun g mid = some g2 →
      g2.pc i = Pc.line103 ∨
      ∃ m2 m3, mid = m2 ++ Event.call i Call.give_mtx :: m3 := by
  induction mid with
  | nil =>
    intro g g2 hpc h
    simp only [grun, Option.some.injEq] at h
    subst h
    exact Or.inl hpc
  | cons e rest ih =>
    intro g g2 hpc h
    obtain ⟨g1, h1, h2⟩ := grun_cons g e rest g2 h
    rcases at103_step g g1 e i hpc h1 with hstay | hgive
    · rcases ih g1 g2 hstay h2 with hl | ⟨m2, m3, hm⟩
      · exact Or.inl hl
      · exact Or.inr ⟨e :: m2, m3, by rw [hm]; rfl⟩
    · exact Or.inr ⟨[], rest, by rw [hgive]; rfl⟩

open TxGate in
/-- From line 100 on: either task `i` is still waiting, or its wait has
returned and it is at line 103, or its wait has returned and it has given the
lock afterwards. -/
theorem seg_wait (mid : List Event) (i : Nat) :
    ∀ (g g2 : Gate), g.pc i = Pc.line100 → grun g mid = some g2 →
      g2.pc i = Pc.line100 ∨
      ∃ ok m1 m2, mid = m1 ++ Event.call i (Call.wait_sem ok) :: m2 ∧
        (g2.pc i = Pc.line103 ∨ ∃ m3 m4, m2 = m3 ++ Event.call i Call.give_mtx :: m4) := by
  induction mid with
  | nil =>
    intro g g2 hpc h
    simp only [grun, Option.some.injEq] at h
    subst h
    exact Or.inl hpc
  | cons e rest ih =>
    intro g g2 hpc h
    obtain ⟨g1, h1, h2⟩ := grun_cons g e rest g2 h
    rcases at100_step g g1 e i hpc h1 with hstay | ⟨ok, he, hnext⟩
    · rcases ih g1 g2 hstay h2 with hl | ⟨ok, m1, m2, hm, hrest⟩
      · exact Or.inl hl
      · exact Or.inr ⟨ok, e :: m1, m2, by rw [hm]; rfl, hrest⟩
    · exact Or.inr ⟨ok, [], rest, by rw [he]; rfl, seg_release rest i g1 g2 hnext h2⟩

open TxGate in
theorem gstep_wait (g g2 : Gate) (i : Nat) (ok : Bool)
    (h : gstep g (Event.call i (Call.wait_sem ok)) = some g2) : g.sem = ok := by
  cases hp : g.pc i <;> simp only [gstep, hp] at h <;> try contradiction
  split at h
  · rename_i hok
    rw [← hok]
    unfold sem_take
    split
    · rename_i hs; rw [hs]
    · rename_i hs; simpa using hs
  · contradiction

open TxGate in
/-- The calls of one invocation, as `uart2_write_blocking_it` lists them, are a
run of the gate for a task that is alone: with the lock free and no stale
signal, whether the transmit start succeeds or fails, and with the wait ending
by timeout. -/
theorem write_calls_run_alone (i : Nat) (d : List Nat) (len : Nat) (hal_ok : Bool)
    (hlen : len ≠ 0) :
    (grun ginit (Event.enter i (some d) len ::
      (TxGate.uart2_write_blocking_it (some d) len true true
        { mtx_taken := true, sem_stale := false, hal_ok := hal_ok,
          sem_signalled := false }).map (Event.call i))).isSome = true := by
  cases hal_ok <;>
    simp [grun, gstep, ginit, enter_call, TxGate.uart2_write_blocking_it, hlen, Gate.goto,
      mtx_take, sem_take, mtx_give]

/-- C17: in every interleaving of callers of `uart2_write_blocking_it` and of
the transmit-complete interrupt, starting from the gate as `main` creates it:
when task `i` has started a transmission (its `HAL_UART_Transmit_IT` returned
`HAL_OK`) and later any task `j` reaches its own call of `HAL_UART_Transmit_IT`,
then in between the wait of `i` on the completion signal has returned, with the
signal (`ok = true`) or by timeout (`ok = false`), and after that `i` has given
the lock.  A wait returns with the signal only when the signal is raised. -/
theorem C17_second_start_after_release (tr pre mid post : List TxGate.Event) (i j : Nat)
    (d1 d2 : List Nat) (ok2 : Bool)
    (hrun : (TxGate.grun TxGate.ginit tr).isSome = true)
    (htr : tr = pre ++ TxGate.Event.call i (TxGate.Call.transmit d1 true)
      :: (mid ++ TxGate.Event.call j (TxGate.Call.transmit d2 ok2) :: post)) :
    (∃ ok m1 m2 m3,
      mid = m1 ++ TxGate.Event.call i (TxGate.Call.wait_sem ok)
        :: (m2 ++ TxGate.Event.call i TxGate.Call.give_mtx :: m3)) ∧
    (∀ (g g2 : TxGate.Gate) (k : Nat) (ok : Bool),
      TxGate.gstep g (TxGate.Event.call k (TxGate.Call.wait_sem ok)) = some g2 → g.sem = ok) := by
  refine ⟨?_, fun g g2 k ok h => gstep_wait g g2 k ok h⟩
  obtain ⟨gend, hend⟩ := Option.isSome_iff_exists.mp hrun
  rw [htr] at hend
  obtain ⟨ga, ha, hrest⟩ := grun_append pre _ TxGate.ginit gend hend
  obtain ⟨gb, hb, hrest2⟩ := grun_cons ga _ _ gend hrest
  obtain ⟨gc, hc, hrest3⟩ := grun_append mid _ gb gend hrest2
  obtain ⟨gd, hd, _⟩ := grun_cons gc _ _ gend hrest3
  have hinvb : TxGate.LockInv gb :=
    lockinv_step ga gb _ (lockinv_run pre TxGate.ginit ga lockinv_init ha) hb
  have hinvc : TxGate.LockInv gc := lockinv_run mid gb gc hinvb hc
  have hpcb : gb.pc i = TxGate.Pc.line100 := by
    rw [(gstep_transmit ga gb i d1 true hb).2]
    simp [TxGate.Gate.goto]
  have hpcj : gc.pc j = TxGate.Pc.line98 d2 := (gstep_transmit gc gd j d2 ok2 hd).1
  have hmj : gc.mtx = some j := hinvc j (by rw [hpcj]; rfl)
  have hclash : ∀ p : TxGate.Pc, p.locked = true → p ≠ TxGate.Pc.line98 d2 → gc.pc i = p → False := by
    intro p hp hne hpi
    have hmi : gc.mtx = some i := hinvc i (by rw [hpi]; exact hp)
    rw [hmj] at hmi
    simp only [Option.some.injEq] at hmi
    subst hmi
    rw [hpcj] at hpi
    exact hne hpi.symm
  rcases seg_wait mid i gb gc hpcb hc with hw | ⟨ok, m1, m2, hm, h103 | ⟨m3, m4, hm2⟩⟩
  · exact absurd hw (fun h => hclash TxGate.Pc.line100 rfl (by simp) h)
  · exact absurd h103 (fun h => hclash TxGate.Pc.line103 rfl (by simp) h)
  · exact ⟨ok, m1, m3, m4, by rw [hm, hm2]⟩

/-- Witness of C17: task 0 starts a transmission, times out on its wait and
gives the lock; only then does task 1 get the lock and start its own. -/
theorem C17_second_start_after_release_witness :
    ∃ ok m1 m2 m3,
      [TxGate.Event.enter 1 (some [50]) 1, TxGate.Event.call 0 (TxGate.Call.wait_sem false),
       TxGate.Event.call 0 TxGate.Call.give_mtx, TxGate.Event.call 1 (TxGate.Call.take_mtx true),
       TxGate.Event.tx_complete true, TxGate.Event.call 1 (TxGate.Call.drain_sem true)]
      = m1 ++ TxGate.Event.call 0 (TxGate.Call.wait_sem ok)
        :: (m2 ++ TxGate.Event.call 0 TxGate.Call.give_mtx :: m3) :=
  (C17_second_start_after_release
    ([TxGate.Event.enter 0 (some [49]) 1, TxGate.Event.call 0 (TxGate.Call.take_mtx true),
      TxGate.Event.call 0 (TxGate.Call.drain_sem false)]
     ++ TxGate.Event.call 0 (TxGate.Call.transmit [49] true)
     :: ([TxGate.Event.enter 1 (some [50]) 1, TxGate.Event.call 0 (TxGate.Call.wait_sem false),
          TxGate.Event.call 0 TxGate.Call.give_mtx,
          TxGate.Event.call 1 (TxGate.Call.take_mtx true),
          TxGate.Event.tx_complete true, TxGate.Event.call 1 (TxGate.Call.drain_sem true)]
         ++ TxGate.Event.call 1 (TxGate.Call.transmit [50] true) :: []))
    [TxGate.Event.enter 0 (some [49]) 1, TxGate.Event.call 0 (TxGate.Call.take_mtx true),
      TxGate.Event.call 0 (TxGate.Call.drain_sem false)]
    [TxGate.Event.enter 1 (some [50]) 1, TxGate.Event.call 0 (TxGate.Call.wait_sem false),
      TxGate.Event.call 0 TxGate.Call.give_mtx, TxGate.Event.call 1 (TxGate.Call.take_mtx true),
      TxGate.Event.tx_complete true, TxGate.Event.call 1 (TxGate.Call.drain_sem true)]
    [] 0 1 [49] [50] true (by decide) rfl).1

end MainC
